import Mathlib

/-!
Verification of the quilkin corrosion crate's core codecs, protocol plumbing
and SQL statement builders, shallowly embedded from the Rust sources
(crates/corrosion/src/{client/{read,write}.rs, persistent.rs,
persistent/{server,error}.rs}, crates/types/src/icao.rs).

Bytes are modelled as `Nat` values below 256, byte strings as `List Nat`,
Rust `&str`/`String` as Lean `String` (or `List Char` where parsing
dominates).  Fallible Rust functions land in `RustResult`, whose `panic`
constructor records aborts (failed assertions, out-of-bounds indexing,
zero-size `chunks_exact`) distinctly from returned errors.
-/

/-- Outcome of a fallible Rust computation: a returned value, a returned
error, or a panic (assertion failure, out-of-bounds index, and similar
aborts). -/
inductive RustResult (ε α : Type) where
  | ok (value : α)
  | err (error : ε)
  | panic (message : String)
deriving DecidableEq, Repr

namespace RustResult

/-- True exactly on the `panic` constructor. -/
def isPanic {ε α : Type} : RustResult ε α → Bool
  | .panic _ => true
  | _ => false

/-- True exactly on the `err` constructor. -/
def isErr {ε α : Type} : RustResult ε α → Bool
  | .err _ => true
  | _ => false

/-- True exactly on the `ok` constructor. -/
def isOk {ε α : Type} : RustResult ε α → Bool
  | .ok _ => true
  | _ => false

end RustResult

/-! ## Base64 (`data_encoding::BASE64_NOPAD`)

The standard RFC 4648 alphabet without padding; decoding is canonical, so a
group whose trailing bits are not zero is rejected, as is a length of 1 mod
4. -/

/-- The character for a 6-bit value in the standard base64 alphabet. -/
def base64Char (d : Nat) : Char :=
  if d < 26 then Char.ofNat (65 + d)
  else if d < 52 then Char.ofNat (97 + (d - 26))
  else if d < 62 then Char.ofNat (48 + (d - 52))
  else if d = 62 then '+' else '/'

/-- The 6-bit value of a standard base64 alphabet character. -/
def base64Val (c : Char) : Option Nat :=
  if 'A' ≤ c ∧ c ≤ 'Z' then some (c.toNat - 65)
  else if 'a' ≤ c ∧ c ≤ 'z' then some (26 + (c.toNat - 97))
  else if '0' ≤ c ∧ c ≤ '9' then some (52 + (c.toNat - 48))
  else if c = '+' then some 62
  else if c = '/' then some 63
  else none

/-- Encode a byte string in unpadded base64, three bytes to four characters
with the RFC 4648 short final group. -/
def base64EncodeGroups : List Nat → List Char
  | [] => []
  | [b1] => [base64Char (b1 / 4), base64Char (b1 % 4 * 16)]
  | [b1, b2] =>
    [base64Char (b1 / 4), base64Char (b1 % 4 * 16 + b2 / 16), base64Char (b2 % 16 * 4)]
  | b1 :: b2 :: b3 :: rest =>
    base64Char (b1 / 4) :: base64Char (b1 % 4 * 16 + b2 / 16) ::
      base64Char (b2 % 16 * 4 + b3 / 64) :: base64Char (b3 % 64) :: base64EncodeGroups rest

/-- Decode unpadded base64, rejecting invalid characters, a trailing group of
one character, and non-canonical (nonzero) trailing bits. -/
def base64DecodeGroups : List Char → Option (List Nat)
  | [] => some []
  | [_] => none
  | [c1, c2] => do
    let v1 ← base64Val c1
    let v2 ← base64Val c2
    if v2 % 16 = 0 then some [v1 * 4 + v2 / 16] else none
  | [c1, c2, c3] => do
    let v1 ← base64Val c1
    let v2 ← base64Val c2
    let v3 ← base64Val c3
    if v3 % 4 = 0 then some [v1 * 4 + v2 / 16, v2 % 16 * 16 + v3 / 4] else none
  | c1 :: c2 :: c3 :: c4 :: rest => do
    let v1 ← base64Val c1
    let v2 ← base64Val c2
    let v3 ← base64Val c3
    let v4 ← base64Val c4
    let tail ← base64DecodeGroups rest
    some ((v1 * 4 + v2 / 16) :: (v2 % 16 * 16 + v3 / 4) :: (v3 % 4 * 64 + v4) :: tail)

/-- `data_encoding::BASE64_NOPAD.encode` on a byte string. -/
def base64_nopad_encode (bytes : List Nat) : String :=
  String.mk (base64EncodeGroups bytes)

/-- `data_encoding::BASE64_NOPAD.decode` on a text cell. -/
def base64_nopad_decode (s : String) : Option (List Nat) :=
  base64DecodeGroups s.data

/-! ## Token sets -/

/-- Modelled from the spec: `TokenSet` (crates/types/src/tokens.rs is not
among the sources; its use in read.rs and write.rs shows a
`BTreeSet<Vec<u8>>` newtype).  The set of opaque byte-strings is represented
by the list of its elements in ascending iteration order. -/
structure TokenSet where
  tokens : List (List Nat)
deriving DecidableEq, Repr

/-- Lexicographic order on byte strings, as `Ord` on Rust `Vec<u8>`. -/
def bytesLt : List Nat → List Nat → Bool
  | [], [] => false
  | [], _ :: _ => true
  | _ :: _, [] => false
  | a :: as, b :: bs => if a < b then true else if b < a then false else bytesLt as bs

/-- `BTreeSet::insert`: insert into the ascending element list, collapsing
duplicates. -/
def insertToken (tok : List Nat) : List (List Nat) → List (List Nat)
  | [] => [tok]
  | t :: ts =>
    if bytesLt tok t then tok :: t :: ts
    else if tok = t then t :: ts
    else t :: insertToken tok ts

/-- `u8::MAX as usize >> 1`, the token-count ceiling in `TokenSet::to_sql`. -/
def MAX_TOKENS : Nat := 255 / 2

/-- SQL parameter values (the `SqliteParam` variants the builders produce). -/
inductive SqliteParam where
  | Null
  | Text (s : String)
  | Integer (i : Int)
deriving DecidableEq, Repr

/-- `TokenSet::to_sql` (client/write.rs): encode the set into one base64
text cell.  An empty set yields SQL NULL; a single token is written as
`[0x01, token]`; two or more tokens of one shared length `L ≤ 127` as
`[0x80 ∣ L, tokens…]`; otherwise the count followed by length-prefixed
tokens.  The two `debug_assert!`s surface as panics. -/
def TokenSet.to_sql (self : TokenSet) : RustResult String SqliteParam :=
  let tokens := self.tokens
  if tokens.isEmpty then RustResult.ok SqliteParam.Null
  else if tokens.length > MAX_TOKENS then
    RustResult.panic "number of tokens is more than 127"
  else
    let firstLen := (tokens.headD []).length
    let sameLen := tokens.all fun tok => tok.length = firstLen
    let firstByte :=
      if tokens.length > 1 then
        if sameLen ∧ firstLen ≤ MAX_TOKENS then 128 + firstLen else tokens.length
      else 1
    let lenPrefixed : Bool := tokens.length > 1 && !sameLen
    if lenPrefixed && tokens.any (fun tok => tok.length > 255) then
      RustResult.panic "token length is more than 255"
    else
      let blob := firstByte ::
        tokens.flatMap fun tok => (if lenPrefixed then [tok.length % 256] else []) ++ tok
      RustResult.ok (SqliteParam.Text (base64_nopad_encode blob))

/-- `slice::chunks_exact` restricted to full chunks; the caller must not pass
a zero size (the size-zero panic is handled at the call site). -/
def chunksExact (size : Nat) (l : List Nat) : List (List Nat) :=
  if h : size = 0 ∨ l.length < size then []
  else l.take size :: chunksExact size (l.drop size)
termination_by l.length
decreasing_by
  simp only [not_or, not_lt] at h
  simp only [List.length_drop]
  omega

/-- The count-prefixed branch of `deserialize_token_set`: read `count`
tokens, each preceded by its length byte.  Indexing `toks[0]` on an empty
slice panics, exactly as in the source. -/
def deserializeTokenLoop (count : Nat) (toks : List Nat)
    (acc : List (List Nat)) : RustResult String (List (List Nat)) :=
  match count with
  | 0 => RustResult.ok acc
  | n + 1 =>
    match toks with
    | [] => RustResult.panic "index out of bounds: the len is 0 but the index is 0"
    | lenByte :: rest =>
      if lenByte > rest.length then
        RustResult.err "token length is longer than remaining binary slice"
      else
        deserializeTokenLoop n (rest.drop lenByte) (insertToken (rest.take lenByte) acc)

/-- `deserialize_token_set` (client/read.rs): base64-decode the cell and
branch on the first byte of the blob — high bit set: uniform-length stride
(`chunks_exact`, which panics when the declared length is 0); greater than
1: count-prefixed tokens; otherwise (0 or 1): drop the first byte and treat
the remainder as a single token. -/
def deserialize_token_set (s : String) : RustResult String TokenSet :=
  match base64_nopad_decode s with
  | none => RustResult.err "base64 decode error"
  | some [] => RustResult.ok ⟨[]⟩
  | some (b0 :: rest) =>
    if b0 ≥ 128 then
      let len := b0 % 128
      if len = 0 then RustResult.panic "chunks cannot have a size of zero"
      else
        RustResult.ok ⟨(chunksExact len rest).foldl (fun acc c => insertToken c acc) []⟩
    else if b0 > 1 then
      match deserializeTokenLoop b0 rest [] with
      | RustResult.ok ts => RustResult.ok ⟨ts⟩
      | RustResult.err e => RustResult.err e
      | RustResult.panic m => RustResult.panic m
    else
      RustResult.ok ⟨[rest]⟩

/-! ## ICAO codes (crates/types/src/icao.rs) -/

/-- Error from parsing an ICAO code; the offending character is carried as
its code point. -/
inductive IcaoError where
  | InvalidLength (len : Nat)
  | InvalidCharacter (character : Nat) (index : Nat)
deriving DecidableEq, Repr

/-- A 4-byte uppercase-ASCII ICAO code. -/
structure IcaoCode where
  c0 : Nat
  c1 : Nat
  c2 : Nat
  c3 : Nat
deriving DecidableEq, Repr

/-- Scan for the first byte outside `b'A'..=b'Z'`, reporting its index. -/
def icaoScan (index : Nat) : List Nat → Option IcaoError
  | [] => none
  | c :: rest =>
    if 65 ≤ c ∧ c ≤ 90 then icaoScan (index + 1) rest
    else some (IcaoError.InvalidCharacter c index)

/-- `TryFrom<&[u8]> for IcaoCode`: the length must be 4 and every byte an
uppercase ASCII letter; the first violation is reported with its index. -/
def IcaoCode.tryFromBytes (value : List Nat) : Except IcaoError IcaoCode :=
  if h : value.length = 4 then
    match icaoScan 0 value with
    | some e => Except.error e
    | none =>
      match value with
      | [a, b, c, d] => Except.ok ⟨a, b, c, d⟩
      | _ => Except.error (IcaoError.InvalidLength value.length)
  else Except.error (IcaoError.InvalidLength value.length)

/-- The textual form of an ICAO code (its `AsRef<str>`). -/
def IcaoCode.asStr (icao : IcaoCode) : String :=
  String.mk [Char.ofNat icao.c0, Char.ofNat icao.c1, Char.ofNat icao.c2, Char.ofNat icao.c3]

/-! ## Handshake (persistent.rs) -/

/-- `MAGIC`: `0xf0cacc1a` in native-endian (little-endian) byte order. -/
def MAGIC : List Nat := [0x1a, 0xcc, 0xca, 0xf0]

/-- `HandshakeError` (persistent.rs). -/
inductive HandshakeError where
  | InvalidResponse
  | InvalidMagic
  | UnsupportedVersion (ours theirs : Nat)
  | InsufficientLength (length expected : Nat)
  | InvalidIcao (e : IcaoError)
deriving DecidableEq, Repr

/-- `explicit_size::<N>`: the first `N` bytes, or `InsufficientLength` when
fewer remain. -/
def explicit_size (n : Nat) (buf : List Nat) : Except HandshakeError (List Nat) :=
  if buf.length < n then
    Except.error (HandshakeError.InsufficientLength buf.length n)
  else Except.ok (buf.take n)

/-- The V1 client handshake payload: QCMP port and ICAO code. -/
structure ClientHandshakeRequestV1 where
  qcmp_port : Nat
  icao : IcaoCode
deriving DecidableEq, Repr

/-- `ClientHandshakeRequestV1::read` over the 6 fixed payload bytes:
little-endian port, then the ICAO bytes (character validation runs). -/
def ClientHandshakeRequestV1.read (buf : List Nat) :
    Except HandshakeError ClientHandshakeRequestV1 :=
  let qcmp_port := buf.headD 0 + 256 * (buf.drop 1).headD 0
  match IcaoCode.tryFromBytes (buf.drop 2) with
  | Except.error e => Except.error (HandshakeError.InvalidIcao e)
  | Except.ok icao => Except.ok ⟨qcmp_port, icao⟩

/-- The parsed client handshake (V1 is the only version). -/
inductive ClientHandshake where
  | V1 (req : ClientHandshakeRequestV1)
deriving DecidableEq, Repr

/-- `ClientHandshake::read` (persistent.rs): check the magic, read the
version from bytes 4 and 5 (panicking on a buffer of length 4 or 5, exactly
as the source's `buf[4]`/`buf[5]` indexing does), then parse the
version-specific payload or fail with `UnsupportedVersion`. -/
def ClientHandshake.read (server_version : Nat) (buf : List Nat) :
    RustResult HandshakeError (Nat × ClientHandshake) :=
  if buf.length < 4 ∨ buf.take 4 ≠ MAGIC then
    RustResult.err HandshakeError.InvalidMagic
  else
    match buf[4]?, buf[5]? with
    | some b4, some b5 =>
      let version := b4 + 256 * b5
      let rest := buf.drop 6
      if version = 1 then
        match explicit_size 6 rest with
        | Except.error e => RustResult.err e
        | Except.ok fixed =>
          match ClientHandshakeRequestV1.read fixed with
          | Except.error e => RustResult.err e
          | Except.ok req => RustResult.ok (version, ClientHandshake.V1 req)
      else RustResult.err (HandshakeError.UnsupportedVersion server_version version)
    | _, _ => RustResult.panic "index out of bounds"

/-- `ClientHandshake::client_details`. -/
def ClientHandshake.client_details : ClientHandshake → Nat × IcaoCode
  | ClientHandshake.V1 req => (req.qcmp_port, req.icao)

/-! ## Error codes (persistent/error.rs) -/

/-- `ErrorCode`: the closed set of stream termination codes. -/
inductive ErrorCode where
  | Unknown
  | Ok
  | BadRequest
  | BadHandshake
  | LengthRequired
  | PayloadTooLarge
  | PayloadInsufficient
  | ClientClosed
  | InternalServerError
  | VersionNotSupported
deriving DecidableEq, Repr

/-- `From<ErrorCode> for quinn::VarInt`: the discriminant as an integer. -/
def ErrorCode.toVarInt : ErrorCode → Nat
  | ErrorCode.Unknown => 0
  | ErrorCode.Ok => 200
  | ErrorCode.BadRequest => 400
  | ErrorCode.BadHandshake => 402
  | ErrorCode.LengthRequired => 411
  | ErrorCode.PayloadTooLarge => 413
  | ErrorCode.PayloadInsufficient => 414
  | ErrorCode.ClientClosed => 499
  | ErrorCode.InternalServerError => 500
  | ErrorCode.VersionNotSupported => 505

/-- `From<quinn::VarInt> for ErrorCode`: every value not in the match list,
400 included, falls to `Unknown`. -/
def ErrorCode.fromVarInt (value : Nat) : ErrorCode :=
  if value = 200 then ErrorCode.Ok
  else if value = 402 then ErrorCode.BadHandshake
  else if value = 411 then ErrorCode.LengthRequired
  else if value = 413 then ErrorCode.PayloadTooLarge
  else if value = 414 then ErrorCode.PayloadInsufficient
  else if value = 499 then ErrorCode.ClientClosed
  else if value = 500 then ErrorCode.InternalServerError
  else if value = 505 then ErrorCode.VersionNotSupported
  else ErrorCode.Unknown

/-! ## Length-prefixed framing (persistent.rs) -/

/-- `LengthReadError` (persistent.rs), with the two `ReadExactError` shapes
split out. -/
inductive LengthReadError where
  | ReadExactFinishedEarly
  | ReadExactReadError
  | Read
  | StreamEnded
  | LengthMismatch (expected received : Nat)
  | Json
deriving DecidableEq, Repr

/-- `From<&LengthReadError> for ErrorCode` (persistent.rs): transport reads
and stream end map to `ClientClosed`, an early finish between length and
payload to `LengthRequired`, length mismatches by comparison, JSON failures
to `BadRequest`. -/
def lengthReadErrorCode : LengthReadError → ErrorCode
  | LengthReadError.Read => ErrorCode.ClientClosed
  | LengthReadError.ReadExactReadError => ErrorCode.ClientClosed
  | LengthReadError.StreamEnded => ErrorCode.ClientClosed
  | LengthReadError.ReadExactFinishedEarly => ErrorCode.LengthRequired
  | LengthReadError.LengthMismatch expected received =>
    if received > expected then ErrorCode.PayloadTooLarge else ErrorCode.PayloadInsufficient
  | LengthReadError.Json => ErrorCode.BadRequest

/-- `write_length_prefixed` (persistent.rs): reserve two bytes, append the
payload, backfill the little-endian 16-bit length.  The length backfill
`assert!`s that the payload fits in a `u16`. -/
def write_length_prefixed (bytes : List Nat) : RustResult String (List Nat) :=
  if bytes.length > 65535 then
    RustResult.panic "assertion failed: buf.len() - 2 <= u16::MAX as usize"
  else
    RustResult.ok ((bytes.length % 256) :: (bytes.length / 256) :: bytes)

/-- Modelled from the spec: `quinn::RecvStream::read_chunk` (quinn is not
part of this repository).  Over a stream whose remaining bytes are `data`,
a request for a chunk of at most `maxLen` bytes yields the next available
bytes capped at `maxLen`; only a request for a nonempty chunk on an ended
stream yields nothing. -/
def readChunk (maxLen : Nat) (data : List Nat) : Option (List Nat) :=
  if maxLen = 0 then some []
  else if data.isEmpty then none
  else some (data.take maxLen)

/-- `read_length_prefixed` (persistent.rs): read two length bytes
(little-endian), then one chunk of exactly that size; a short stream fails
`ReadExactFinishedEarly`, an ended stream `StreamEnded`, a chunk of a
different size `LengthMismatch`. -/
def read_length_prefixed (data : List Nat) : Except LengthReadError (List Nat) :=
  match data with
  | b0 :: b1 :: rest =>
    let len := b0 + 256 * b1
    match readChunk len rest with
    | none => Except.error LengthReadError.StreamEnded
    | some chunk =>
      if chunk.length ≠ len then
        Except.error (LengthReadError.LengthMismatch len chunk.length)
      else Except.ok chunk
  | _ => Except.error LengthReadError.ReadExactFinishedEarly

/-! ## Server handshake completion (persistent/server.rs) -/

/-- `VERSION` (persistent/server.rs). -/
def VERSION : Nat := 1

/-- What `Server::complete_handshake` does after the framed handshake
request has been read (or has failed to read). -/
inductive HandshakeCloseDecision where
  | accepted (qcmp_port : Nat) (icao : IcaoCode)
  | close (code : ErrorCode)
  | panicked (msg : String)
deriving DecidableEq, Repr

/-- The close/accept decision of `Server::complete_handshake`: a framing
error closes with the code mapped from the `LengthReadError`; any
`ClientHandshake::read` error closes with `BadHandshake`; success accepts
and reports the client details. -/
def complete_handshake_decision (frame : Except LengthReadError (List Nat)) :
    HandshakeCloseDecision :=
  match frame with
  | Except.error e => HandshakeCloseDecision.close (lengthReadErrorCode e)
  | Except.ok buf =>
    match ClientHandshake.read VERSION buf with
    | RustResult.err _ => HandshakeCloseDecision.close ErrorCode.BadHandshake
    | RustResult.panic m => HandshakeCloseDecision.panicked m
    | RustResult.ok (_, hs) =>
      let (qcmp_port, icao) := hs.client_details
      HandshakeCloseDecision.accepted qcmp_port icao

/-! ## Decimal and hexadecimal text

Utilities shared by the IP address and endpoint codecs: canonical decimal
and lowercase-hexadecimal renderings of naturals, and the corresponding
digit-string parses. -/

/-- The character of a decimal digit. -/
def decChar (d : Nat) : Char := Char.ofNat (48 + d)

/-- The character of a hexadecimal digit, lowercase. -/
def hexChar (d : Nat) : Char :=
  if d < 10 then Char.ofNat (48 + d) else Char.ofNat (87 + d)

/-- Little-endian base-`b` digits with explicit fuel, so that the kernel
can evaluate it (`Nat.digits` is well-founded recursion and cannot). -/
def digitsAux (b : Nat) : Nat → Nat → List Nat
  | 0, _ => []
  | fuel + 1, n => if n = 0 then [] else n % b :: digitsAux b fuel (n / b)

/-- Little-endian base-`b` digits of `n` (agrees with `Nat.digits` for
`2 ≤ b`). -/
def digitsBase (b n : Nat) : List Nat :=
  digitsAux b n n

/-- Decimal rendering of a natural, most significant digit first. -/
def natDecChars (n : Nat) : List Char :=
  if n = 0 then ['0'] else ((digitsBase 10 n).map decChar).reverse

/-- Lowercase hexadecimal rendering of a natural, most significant digit
first. -/
def natHexChars (n : Nat) : List Char :=
  if n = 0 then ['0'] else ((digitsBase 16 n).map hexChar).reverse

/-- The value of a decimal digit character. -/
def decVal (c : Char) : Option Nat :=
  if '0' ≤ c ∧ c ≤ '9' then some (c.toNat - 48) else none

/-- The value of a hexadecimal digit character, either case. -/
def hexVal (c : Char) : Option Nat :=
  if '0' ≤ c ∧ c ≤ '9' then some (c.toNat - 48)
  else if 'a' ≤ c ∧ c ≤ 'f' then some (10 + (c.toNat - 97))
  else if 'A' ≤ c ∧ c ≤ 'F' then some (10 + (c.toNat - 65))
  else none

/-- Fold a digit string onto an accumulator, given the digit reader; `none`
when any character is rejected. -/
def foldDigitsAcc (val : Char → Option Nat) (base : Nat) (acc : Nat) :
    List Char → Option Nat
  | [] => some acc
  | c :: cs =>
    match val c with
    | none => none
    | some d => foldDigitsAcc val base (base * acc + d) cs

/-- Fold a digit string into its value, given the digit reader; `none` when
any character is rejected. -/
def foldDigits (val : Char → Option Nat) (base : Nat) (cs : List Char) : Option Nat :=
  foldDigitsAcc val base 0 cs

/-- Rust `u16::from_str`: an optional leading plus sign, then one or more
decimal digits; overflow past 65535 is an error. -/
def rustParseU16 (cs : List Char) : Option Nat :=
  let ds := match cs with
    | '+' :: rest => rest
    | other => other
  if ds.isEmpty then none
  else match foldDigits decVal 10 ds with
    | none => none
    | some v => if v ≤ 65535 then some v else none

/-! ## IP addresses

Modelled from the spec: the endpoint codec delegates IP formatting to "the
transport's canonical textual form" (§4.2), i.e. the standard library's
`Ipv4Addr`/`Ipv6Addr` renderings (crates/types/src/endpoint.rs is not among
the sources).  IPv4 is dotted decimal; IPv6 follows RFC 5952 as the Rust
standard library implements it: lowercase hex groups, the leftmost longest
run of two or more zero groups compressed to `::`, and the IPv4-mapped
special case `::ffff:a.b.c.d`. -/

/-- An IPv4 address as four octets. -/
structure Ipv4Addr where
  a : Nat
  b : Nat
  c : Nat
  d : Nat
deriving DecidableEq, Repr

/-- An IPv6 address as eight 16-bit groups. -/
structure Ipv6Addr where
  g0 : Nat
  g1 : Nat
  g2 : Nat
  g3 : Nat
  g4 : Nat
  g5 : Nat
  g6 : Nat
  g7 : Nat
deriving DecidableEq, Repr

/-- The eight groups of an IPv6 address, in order. -/
def Ipv6Addr.segments (ip : Ipv6Addr) : List Nat :=
  [ip.g0, ip.g1, ip.g2, ip.g3, ip.g4, ip.g5, ip.g6, ip.g7]

/-- An IP address of either family. -/
inductive IpAddr where
  | v4 (ip : Ipv4Addr)
  | v6 (ip : Ipv6Addr)
deriving DecidableEq, Repr

/-- Parts joined by a separator list. -/
def joinWith (sep : List Char) : List (List Char) → List Char
  | [] => []
  | [p] => p
  | p :: rest => p ++ sep ++ joinWith sep rest

/-- Dotted-decimal rendering of an IPv4 address. -/
def ipv4Chars (ip : Ipv4Addr) : List Char :=
  joinWith ['.'] [natDecChars ip.a, natDecChars ip.b, natDecChars ip.c, natDecChars ip.d]

/-- One octet of a dotted-decimal IPv4 text: one to three decimal digits, no
leading zero, value at most 255. -/
def parseOctet (cs : List Char) : Option Nat :=
  if cs.isEmpty ∨ 3 < cs.length then none
  else if cs.headD ' ' = '0' ∧ cs ≠ ['0'] then none
  else match foldDigits decVal 10 cs with
    | none => none
    | some v => if v ≤ 255 then some v else none

/-- Parse a dotted-decimal IPv4 text: exactly four octets. -/
def parseIpv4Chars (cs : List Char) : Option Ipv4Addr :=
  match (cs.splitOn '.').mapM parseOctet with
  | some [a, b, c, d] => some ⟨a, b, c, d⟩
  | _ => none

/-- The length of the zero run beginning at position `s` of a group list. -/
def zeroRunLenAt (l : List Nat) (s : Nat) : Nat :=
  ((l.drop s).takeWhile fun seg => seg = 0).length

/-- The leftmost longest run of zeros in a group list, as (start, length):
scan every start position, a strictly longer run displacing the chosen one
(so runs of equal length do not displace an earlier one, and a start inside
a run never beats that run's own start). -/
def longestZeroRun (l : List Nat) : Nat × Nat :=
  (List.range l.length).foldl
    (fun best s =>
      let n := zeroRunLenAt l s
      if n > best.2 then (s, n) else best)
    (0, 0)

/-- Hex groups joined with single colons. -/
def joinHexGroups (gs : List Nat) : List Char :=
  joinWith [':'] (gs.map natHexChars)

/-- RFC 5952 rendering of an IPv6 address as the Rust standard library
implements it: the IPv4-mapped form is special-cased, otherwise the leftmost
longest run of two or more zero groups is compressed. -/
def ipv6Chars (ip : Ipv6Addr) : List Char :=
  if ip.g0 = 0 ∧ ip.g1 = 0 ∧ ip.g2 = 0 ∧ ip.g3 = 0 ∧ ip.g4 = 0 ∧ ip.g5 = 0xffff then
    [':', ':', 'f', 'f', 'f', 'f', ':'] ++
      ipv4Chars ⟨ip.g6 / 256, ip.g6 % 256, ip.g7 / 256, ip.g7 % 256⟩
  else
    let segs := ip.segments
    let run := longestZeroRun segs
    if run.2 > 1 then
      joinHexGroups (segs.take run.1) ++ [':', ':'] ++
        joinHexGroups (segs.drop (run.1 + run.2))
    else joinHexGroups segs

/-- One hex group of an IPv6 text: one to four hex digits (leading zeros
allowed). -/
def parseHexGroup (cs : List Char) : Option Nat :=
  if cs.isEmpty ∨ 4 < cs.length then none
  else foldDigits hexVal 16 cs

/-- Split at the first `::`, when present. -/
def findColonColon : List Char → Option (List Char × List Char)
  | [] => none
  | [_] => none
  | c1 :: c2 :: rest =>
    if c1 = ':' ∧ c2 = ':' then some ([], rest)
    else
      match findColonColon (c2 :: rest) with
      | some (l, r) => some (c1 :: l, r)
      | none => none

/-- Parse a colon-separated group list; when `v4Tail` is set the final part
may instead be a dotted-decimal IPv4 address contributing two groups. -/
def parseGroupParts (v4Tail : Bool) : List (List Char) → Option (List Nat)
  | [] => some []
  | [last] =>
    match parseHexGroup last with
    | some g => some [g]
    | none =>
      if v4Tail ∧ last.contains '.' then
        match parseIpv4Chars last with
        | some v4 => some [v4.a * 256 + v4.b, v4.c * 256 + v4.d]
        | none => none
      else none
  | part :: rest => do
    let g ← parseHexGroup part
    let gs ← parseGroupParts v4Tail rest
    some (g :: gs)

/-- The group list of one side of an IPv6 text: empty text means no groups. -/
def parseGroupSide (v4Tail : Bool) (cs : List Char) : Option (List Nat) :=
  if cs.isEmpty then some [] else parseGroupParts v4Tail (cs.splitOn ':')

/-- Build an `Ipv6Addr` from exactly eight groups. -/
def ipv6OfGroups : List Nat → Option Ipv6Addr
  | [a, b, c, d, e, f, g, h] => some ⟨a, b, c, d, e, f, g, h⟩
  | _ => none

/-- Parse an IPv6 text: either eight colon-separated groups (the last two
possibly given as an embedded IPv4 address), or two group lists joined by
one `::` standing for the elided zero groups. -/
def parseIpv6Chars (cs : List Char) : Option Ipv6Addr :=
  match findColonColon cs with
  | some (l, r) => do
    let heads ← parseGroupSide false l
    let tails ← parseGroupSide true r
    if heads.length + tails.length ≤ 7 then
      ipv6OfGroups (heads ++ List.replicate (8 - heads.length - tails.length) 0 ++ tails)
    else none
  | none => do
    let gs ← parseGroupParts true (cs.splitOn ':')
    if gs.length = 8 then ipv6OfGroups gs else none

/-- `IpAddr` rendering: the family's canonical text. -/
def ipChars : IpAddr → List Char
  | IpAddr.v4 ip => ipv4Chars ip
  | IpAddr.v6 ip => ipv6Chars ip

/-- `IpAddr::from_str`: try IPv4 first, then IPv6. -/
def parseIpChars (cs : List Char) : Option IpAddr :=
  match parseIpv4Chars cs with
  | some v4 => some (IpAddr.v4 v4)
  | none =>
    match parseIpv6Chars cs with
    | some v6 => some (IpAddr.v6 v6)
    | none => none

/-! ## Endpoints -/

/-- Modelled from the spec: `AddressKind` (crates/types/src/endpoint.rs is
not among the sources) — a hostname or an IP address. -/
inductive AddressKind where
  | Name (name : String)
  | Ip (ip : IpAddr)
deriving DecidableEq, Repr

/-- Modelled from the spec: `Endpoint` — an address plus a 16-bit port. -/
structure Endpoint where
  address : AddressKind
  port : Nat
deriving DecidableEq, Repr

/-- Modelled from the spec: `Display for AddressKind` — the bare hostname or
the IP's canonical text, with no port and no `|` marker (write.rs adds the
marker itself when it wants one, "which is invalid in both hostnames and
IPs"). -/
def AddressKind.toText : AddressKind → String
  | AddressKind.Name hn => hn
  | AddressKind.Ip ip => String.mk (ipChars ip)

/-- `to_compact_str` (client/write.rs) at character level: hostname bare, IP
behind a `|` marker, then `:` and the decimal port. -/
def toCompactChars (ep : Endpoint) : List Char :=
  (match ep.address with
   | AddressKind.Name hn => hn.data
   | AddressKind.Ip ip => '|' :: ipChars ip) ++ ':' :: natDecChars ep.port

/-- `to_compact_str` (client/write.rs). -/
def to_compact_str (ep : Endpoint) : String :=
  String.mk (toCompactChars ep)

/-- `str::rsplit_once`: split at the last occurrence of the separator. -/
def splitLast (sep : Char) : List Char → Option (List Char × List Char)
  | [] => none
  | c :: rest =>
    match splitLast sep rest with
    | some (l, r) => some (c :: l, r)
    | none => if c = sep then some ([], rest) else none

/-- `parse_endpoint` (client/read.rs): split at the last `:`, parse the port
as a `u16`, and parse the left side as an IP when it carries the `|` marker,
as a hostname otherwise. -/
def parse_endpoint (addr : String) : Except String Endpoint :=
  match splitLast ':' addr.data with
  | none => Except.error "missing port separator"
  | some (l, r) =>
    match rustParseU16 r with
    | none => Except.error "invalid port"
    | some port =>
      match l with
      | '|' :: ipcs =>
        match parseIpChars ipcs with
        | none => Except.error "invalid ip address"
        | some ip => Except.ok ⟨AddressKind.Ip ip, port⟩
      | _ => Except.ok ⟨AddressKind.Name (String.mk l), port⟩

/-! ## Statement builders (client/write.rs) -/

/-- A SQL statement, plain or parameterized. -/
inductive Statement where
  | Simple (sql : String)
  | WithParams (sql : String) (params : List SqliteParam)
deriving DecidableEq, Repr

/-- The SQL text of a statement. -/
def Statement.sql : Statement → String
  | Statement.Simple s => s
  | Statement.WithParams s _ => s

/-- The parameters of a statement. -/
def Statement.params : Statement → List SqliteParam
  | Statement.Simple _ => []
  | Statement.WithParams _ ps => ps

/-- `ToSqlParam for Endpoint`: the compact text. -/
def Endpoint.to_sql (ep : Endpoint) : SqliteParam :=
  SqliteParam.Text (to_compact_str ep)

/-- `ToSqlParam for IcaoCode`: the 4-character text. -/
def IcaoCode.to_sql (icao : IcaoCode) : SqliteParam :=
  SqliteParam.Text icao.asStr

/-- A peer (`SocketAddrV6`): an IPv6-mapped address and a port. -/
structure Peer where
  ip : Ipv6Addr
  port : Nat
deriving DecidableEq, Repr

/-- `peer.ip().to_string()`: the canonical text of the peer's IP alone. -/
def Peer.ipText (peer : Peer) : String :=
  String.mk (ipv6Chars peer.ip)

/-- `ToSqlParam for Peer`: the text of the IP alone. -/
def Peer.to_sql (peer : Peer) : SqliteParam :=
  SqliteParam.Text peer.ipText

/-- `Server::upsert` (client/write.rs): push the `servers` INSERT (conflict
update patching `contributors` with the peer's IP key, guarded by
`excluded.icao = servers.icao`), then the `dc` INSERT (conflict update
patching `servers` with `endpoint.address.to_string()` as the key).  The
token encoding's panics propagate. -/
def Server.upsert (peer : Peer) (endpoint : Endpoint) (icao : IcaoCode)
    (tokens : TokenSet) (statements : List Statement) :
    RustResult String (List Statement) :=
  match tokens.to_sql with
  | RustResult.panic m => RustResult.panic m
  | RustResult.err e => RustResult.err e
  | RustResult.ok tokensParam =>
    let peer_ip := peer.ipText
    let s1 := Statement.WithParams
      ("INSERT INTO servers (endpoint,icao,tokens,contributors,cont_update) VALUES (?,?,?,jsonb(\'\x7b\"" ++ peer_ip ++
        "\":\x7b\x7d\x7d\'),unixepoch(\'now\'))\n             ON CONFLICT(endpoint) DO UPDATE SET\n                contributors = jsonb_patch(contributors,\'\x7b\"" ++ peer_ip ++
        "\":\x7b\x7d\x7d\'),\n                cont_update = unixepoch(\'now\')\n             WHERE excluded.icao = servers.icao")
      [endpoint.to_sql, icao.to_sql, tokensParam]
    let server := endpoint.address.toText
    let s2 := Statement.WithParams
      ("INSERT INTO dc (ip,port,icao,servers) VALUES (?,?,?,jsonb(\'\x7b\"" ++ server ++
        "\":\x7b\x7d\x7d\'))\n            ON CONFLICT(ip) DO UPDATE SET\n                servers = jsonb_patch(servers,\'\x7b\"" ++ server ++
        "\":\x7b\x7d\x7d\')\n            WHERE excluded.icao = dc.icao")
      [SqliteParam.Text peer_ip, SqliteParam.Integer peer.port, icao.to_sql]
    RustResult.ok (statements ++ [s1, s2])

/-- `Server::remove_immediate` (client/write.rs): delete the `servers` row,
then null `endpoint.address.to_string()` in the peer's `dc.servers`. -/
def Server.remove_immediate (peer : Peer) (endpoint : Endpoint)
    (statements : List Statement) : List Statement :=
  let s1 := Statement.WithParams
    "DELETE FROM servers WHERE rowid = (SELECT MIN(rowid) FROM servers WHERE endpoint = ?)"
    [endpoint.to_sql]
  let server := endpoint.address.toText
  let s2 := Statement.WithParams
    ("UPDATE dc SET servers = jsonb_patch(servers, \'\x7b\"" ++ server ++
      "\":null\x7d\') WHERE rowid = (SELECT MIN(rowid) FROM dc WHERE ip = ?)")
    [SqliteParam.Text peer.ipText]
  statements ++ [s1, s2]

/-- `Server::remove_deferred` (client/write.rs): null the peer in the
`servers` row's `contributors` and refresh `cont_update`, then null
`to_compact_str(endpoint)` in the peer's `dc.servers`. -/
def Server.remove_deferred (peer : Peer) (endpoint : Endpoint)
    (statements : List Statement) : List Statement :=
  let peer_ip := peer.ipText
  let s1 := Statement.WithParams
    ("UPDATE servers SET\n                contributors = jsonb_patch(contributors,\'\x7b\"" ++ peer_ip ++
      "\":null\x7d\'),\n                cont_update = unixepoch(\'now\')\n            WHERE rowid = (SELECT MIN(rowid) FROM servers WHERE endpoint = ?)")
    [endpoint.to_sql]
  let server := to_compact_str endpoint
  let s2 := Statement.WithParams
    ("UPDATE dc SET servers = jsonb_patch(servers, \'\x7b\"" ++ server ++
      "\":null\x7d\') WHERE rowid = (SELECT MIN(rowid) FROM dc WHERE ip = ?)")
    [SqliteParam.Text peer_ip]
  statements ++ [s1, s2]

/-- `UpdateBuilder` (client/write.rs): the target endpoint and the optional
new column values. -/
structure UpdateBuilder where
  ep : Endpoint
  icao : Option IcaoCode
  tokens : Option TokenSet
deriving DecidableEq, Repr

/-- `Server::update` (client/write.rs): build
`UPDATE servers SET <col = ?,…> WHERE rowid = …` from whichever of `icao`
and `tokens` are set — with no assertion that at least one is.  The token
encoding's panics propagate. -/
def Server.update (update : UpdateBuilder) (statements : List Statement) :
    RustResult String (List Statement) :=
  let afterIcao :=
    match update.icao with
    | some icao => ("UPDATE servers SET " ++ "icao = ?", [SqliteParam.Text icao.asStr])
    | none => ("UPDATE servers SET ", [])
  match update.tokens with
  | some ts =>
    match ts.to_sql with
    | RustResult.panic m => RustResult.panic m
    | RustResult.err e => RustResult.err e
    | RustResult.ok tokensParam =>
      let q := afterIcao.1 ++ (if afterIcao.2.isEmpty then "" else ", ") ++ "tokens = ?"
      let ps := afterIcao.2 ++ [tokensParam]
      RustResult.ok (statements ++ [Statement.WithParams
        (q ++ " WHERE rowid = (SELECT MIN(rowid) FROM servers WHERE endpoint = ?)")
        (ps ++ [update.ep.to_sql])])
  | none =>
    RustResult.ok (statements ++ [Statement.WithParams
      (afterIcao.1 ++ " WHERE rowid = (SELECT MIN(rowid) FROM servers WHERE endpoint = ?)")
      (afterIcao.2 ++ [update.ep.to_sql])])

/-- `Datacenter::update` (client/write.rs): build
`UPDATE dc SET <col = ?,…> WHERE rowid = …`; here a `debug_assert!` demands
that at least one of `port` and `icao` is set. -/
def Datacenter.update (peer : Peer) (port : Option Nat) (icao : Option IcaoCode)
    (statements : List Statement) : RustResult String (List Statement) :=
  if port.isNone ∧ icao.isNone then
    RustResult.panic "assertion failed: port.is_some() || icao.is_some()"
  else
    let afterPort :=
      match port with
      | some p => ("UPDATE dc SET " ++ "port = ?", [SqliteParam.Integer p])
      | none => ("UPDATE dc SET ", [])
    let afterIcao :=
      match icao with
      | some icao =>
        (afterPort.1 ++ (if afterPort.2.isEmpty then "" else ", ") ++ "icao = ?",
          afterPort.2 ++ [SqliteParam.Text icao.asStr])
      | none => afterPort
    RustResult.ok (statements ++ [Statement.WithParams
      (afterIcao.1 ++ " WHERE rowid = (SELECT MIN(rowid) FROM dc WHERE ip = ?)")
      (afterIcao.2 ++ [peer.to_sql])])

/-! # Verified properties

Supporting lemmas first: digit strings, split/join inverses, the IP and
endpoint codec round trips; the claim theorems close the file. -/

theorem digitsAux_eq_digits (b : Nat) (hb : 2 ≤ b) :
    ∀ fuel n, n ≤ fuel → digitsAux b fuel n = Nat.digits b n := by
  intro fuel
  induction fuel with
  | zero =>
    intro n hn
    rw [Nat.le_zero.mp hn, Nat.digits_zero]
    rfl
  | succ fuel ih =>
    intro n hn
    by_cases h0 : n = 0
    · rw [h0, Nat.digits_zero]
      rfl
    · unfold digitsAux
      rw [if_neg h0, Nat.digits_def' (by omega : 1 < b) (by omega : 0 < n),
        ih (n / b) (by
          have := Nat.div_lt_self (by omega : 0 < n) (by omega : 1 < b)
          omega)]

theorem digitsBase_eq_digits (b n : Nat) (hb : 2 ≤ b) :
    digitsBase b n = Nat.digits b n :=
  digitsAux_eq_digits b hb n n (le_refl n)

theorem foldDigitsAcc_append (val : Char → Option Nat) (base a : Nat)
    (xs ys : List Char) :
    foldDigitsAcc val base a (xs ++ ys) =
      match foldDigitsAcc val base a xs with
      | none => none
      | some m => foldDigitsAcc val base m ys := by
  induction xs generalizing a with
  | nil => simp [foldDigitsAcc]
  | cons c cs ih =>
    simp only [List.cons_append, foldDigitsAcc]
    cases val c with
    | none => rfl
    | some d => exact ih _

theorem decVal_decChar : ∀ d, d < 10 → decVal (decChar d) = some d := by decide

theorem hexVal_hexChar : ∀ d, d < 16 → hexVal (hexChar d) = some d := by decide

theorem foldDigitsAcc_rev_map (val : Char → Option Nat) (toChar : Nat → Char)
    (base : Nat) (ds : List Nat) (hval : ∀ d ∈ ds, val (toChar d) = some d)
    (a : Nat) :
    foldDigitsAcc val base a ((ds.map toChar).reverse) =
      some (a * base ^ ds.length + Nat.ofDigits base ds) := by
  induction ds generalizing a with
  | nil => simp [foldDigitsAcc, Nat.ofDigits]
  | cons d ds ih =>
    rw [List.map_cons, List.reverse_cons, foldDigitsAcc_append,
      ih (fun x hx => hval x (List.mem_cons_of_mem _ hx))]
    have hd : val (toChar d) = some d := hval d (List.mem_cons_self d ds)
    simp only [foldDigitsAcc, hd, Nat.ofDigits_cons, List.length_cons, Option.some.injEq]
    ring

theorem foldDigits_natDecChars (n : Nat) :
    foldDigits decVal 10 (natDecChars n) = some n := by
  unfold natDecChars foldDigits
  by_cases h : n = 0
  · subst h; decide
  · rw [if_neg h, digitsBase_eq_digits 10 n (by norm_num),
      foldDigitsAcc_rev_map decVal decChar 10 _
        (fun d hd => decVal_decChar d (Nat.digits_lt_base (by norm_num) hd))]
    simp [Nat.ofDigits_digits]

theorem foldDigits_natHexChars (n : Nat) :
    foldDigits hexVal 16 (natHexChars n) = some n := by
  unfold natHexChars foldDigits
  by_cases h : n = 0
  · subst h; decide
  · rw [if_neg h, digitsBase_eq_digits 16 n (by norm_num),
      foldDigitsAcc_rev_map hexVal hexChar 16 _
        (fun d hd => hexVal_hexChar d (Nat.digits_lt_base (by norm_num) hd))]
    simp [Nat.ofDigits_digits]

theorem decChar_range : ∀ d, d < 10 → '0' ≤ decChar d ∧ decChar d ≤ '9' := by
  decide

theorem hexChar_range : ∀ d, d < 16 →
    ('0' ≤ hexChar d ∧ hexChar d ≤ '9') ∨ ('a' ≤ hexChar d ∧ hexChar d ≤ 'f') := by
  decide

theorem natDecChars_range : ∀ n, ∀ c ∈ natDecChars n, '0' ≤ c ∧ c ≤ '9' := by
  intro n c hc
  unfold natDecChars at hc
  split at hc
  · simp only [List.mem_singleton] at hc
    subst hc
    decide
  · rw [digitsBase_eq_digits 10 n (by norm_num), List.mem_reverse] at hc
    obtain ⟨d, hd, rfl⟩ := List.mem_map.mp hc
    exact decChar_range d (Nat.digits_lt_base (by norm_num) hd)

theorem natHexChars_range : ∀ n, ∀ c ∈ natHexChars n,
    ('0' ≤ c ∧ c ≤ '9') ∨ ('a' ≤ c ∧ c ≤ 'f') := by
  intro n c hc
  unfold natHexChars at hc
  split at hc
  · simp only [List.mem_singleton] at hc
    subst hc
    decide
  · rw [digitsBase_eq_digits 16 n (by norm_num), List.mem_reverse] at hc
    obtain ⟨d, hd, rfl⟩ := List.mem_map.mp hc
    exact hexChar_range d (Nat.digits_lt_base (by norm_num) hd)

theorem decRange_ne (c : Char) (h : '0' ≤ c ∧ c ≤ '9') :
    c ≠ ':' ∧ c ≠ '.' ∧ c ≠ '|' ∧ c ≠ '+' := by
  refine ⟨?_, ?_, ?_, ?_⟩ <;> rintro rfl <;> exact absurd h (by decide)

theorem hexRange_ne (c : Char)
    (h : ('0' ≤ c ∧ c ≤ '9') ∨ ('a' ≤ c ∧ c ≤ 'f')) :
    c ≠ ':' ∧ c ≠ '.' := by
  rcases h with h | h
  · exact ⟨(decRange_ne c h).1, (decRange_ne c h).2.1⟩
  · refine ⟨?_, ?_⟩ <;> rintro rfl <;> exact absurd h (by decide)

theorem natDecChars_ne_nil (n : Nat) : natDecChars n ≠ [] := by
  unfold natDecChars
  split
  · simp
  · rw [digitsBase_eq_digits 10 n (by norm_num)]
    simp [Nat.digits_ne_nil_iff_ne_zero, *]

theorem natHexChars_ne_nil (n : Nat) : natHexChars n ≠ [] := by
  unfold natHexChars
  split
  · simp
  · rw [digitsBase_eq_digits 16 n (by norm_num)]
    simp [Nat.digits_ne_nil_iff_ne_zero, *]

theorem natDecChars_len_le (n k : Nat) (hk : 1 ≤ k) (h : n < 10 ^ k) :
    (natDecChars n).length ≤ k := by
  unfold natDecChars
  split
  · simpa using hk
  · rw [digitsBase_eq_digits 10 n (by norm_num), List.length_reverse, List.length_map,
      Nat.digits_len 10 n (by norm_num) (by assumption)]
    have := Nat.log_lt_of_lt_pow (by assumption) h
    omega

theorem natHexChars_len_le (n k : Nat) (hk : 1 ≤ k) (h : n < 16 ^ k) :
    (natHexChars n).length ≤ k := by
  unfold natHexChars
  split
  · simpa using hk
  · rw [digitsBase_eq_digits 16 n (by norm_num), List.length_reverse, List.length_map,
      Nat.digits_len 16 n (by norm_num) (by assumption)]
    have := Nat.log_lt_of_lt_pow (by assumption) h
    omega

theorem natDecChars_head (n : Nat) (hn : n ≠ 0) :
    (natDecChars n).headD ' ' ≠ '0' := by
  unfold natDecChars
  rw [if_neg hn, digitsBase_eq_digits 10 n (by norm_num), ← List.map_reverse]
  have hne : (Nat.digits 10 n).reverse ≠ [] := by
    simp [Nat.digits_ne_nil_iff_ne_zero, hn]
  obtain ⟨d, rest, hdr⟩ := List.exists_cons_of_ne_nil hne
  have hd_mem : d ∈ Nat.digits 10 n := by
    have : d ∈ (Nat.digits 10 n).reverse := by rw [hdr]; exact List.mem_cons_self d rest
    rwa [List.mem_reverse] at this
  have hd_lt : d < 10 := Nat.digits_lt_base (by norm_num) hd_mem
  have hd_ne : d ≠ 0 := by
    intro h0
    subst h0
    have h1 : (Nat.digits 10 n).getLast? = some 0 := by
      rw [← List.head?_reverse, hdr]
      rfl
    have h3 := List.getLast?_eq_getLast (Nat.digits 10 n)
      (by simp [Nat.digits_ne_nil_iff_ne_zero, hn])
    rw [h1] at h3
    exact Nat.getLast_digit_ne_zero 10 hn (Option.some.inj h3).symm
  rw [hdr, List.map_cons]
  have : ∀ d, d < 10 → d ≠ 0 → decChar d ≠ '0' := by decide
  simpa using this d hd_lt hd_ne

theorem parseOctet_natDecChars (n : Nat) (h : n ≤ 255) :
    parseOctet (natDecChars n) = some n := by
  unfold parseOctet
  rw [if_neg, if_neg]
  · rw [foldDigits_natDecChars]
    simp [h]
  · intro hcon
    by_cases hn : n = 0
    · subst hn
      revert hcon
      decide
    · exact natDecChars_head n hn hcon.1
  · push_neg
    refine ⟨by simpa using natDecChars_ne_nil n, ?_⟩
    simpa using natDecChars_len_le n 3 (by norm_num) (by omega)

theorem parseHexGroup_natHexChars (n : Nat) (h : n < 65536) :
    parseHexGroup (natHexChars n) = some n := by
  unfold parseHexGroup
  rw [if_neg]
  · rw [foldDigits_natHexChars]
  push_neg
  refine ⟨by simpa using natHexChars_ne_nil n, ?_⟩
  simpa using natHexChars_len_le n 4 (by norm_num) (by omega)

theorem splitOn_of_not_mem (sep : Char) (p : List Char) (h : sep ∉ p) :
    p.splitOn sep = [p] := by
  unfold List.splitOn
  apply List.splitOnP_eq_single
  intro x hx
  simp only [beq_iff_eq]
  intro heq
  exact h (heq ▸ hx)

theorem splitOn_sep_append (sep : Char) (p rest : List Char) (h : sep ∉ p) :
    (p ++ sep :: rest).splitOn sep = p :: rest.splitOn sep := by
  unfold List.splitOn
  exact @List.splitOnP_first Char (fun x => x == sep) p
    (fun x hx => by
      simp only [beq_iff_eq]
      intro heq
      exact h (heq ▸ hx))
    sep (by simp) rest

theorem splitOn_joinWith (sep : Char) (parts : List (List Char))
    (hsep : ∀ p ∈ parts, sep ∉ p) (hne : parts ≠ []) :
    (joinWith [sep] parts).splitOn sep = parts := by
  induction parts with
  | nil => exact absurd rfl hne
  | cons p rest ih =>
    cases rest with
    | nil => exact splitOn_of_not_mem sep p (hsep p (List.mem_cons_self p []))
    | cons q rest2 =>
      show (p ++ [sep] ++ joinWith [sep] (q :: rest2)).splitOn sep = _
      rw [List.append_assoc, List.singleton_append,
        splitOn_sep_append sep p _ (hsep p (List.mem_cons_self p _)),
        ih (fun x hx => hsep x (List.mem_cons_of_mem _ hx)) (by simp)]

theorem joinWith_ne_nil (sep : List Char) (parts : List (List Char))
    (hne : parts ≠ []) (hp : ∀ p ∈ parts, p ≠ []) : joinWith sep parts ≠ [] := by
  cases parts with
  | nil => exact absurd rfl hne
  | cons p rest =>
    cases rest with
    | nil => exact hp p (List.mem_cons_self p [])
    | cons q rest2 =>
      show p ++ sep ++ joinWith sep (q :: rest2) ≠ []
      have := hp p (List.mem_cons_self p _)
      simp [this]

theorem mem_joinWith_of_mem_part (sep : List Char) (parts : List (List Char))
    (c : Char) (p : List Char) (hp : p ∈ parts) (hc : c ∈ p) :
    c ∈ joinWith sep parts := by
  induction parts with
  | nil => cases hp
  | cons q rest ih =>
    cases rest with
    | nil =>
      rw [List.mem_singleton] at hp
      subst hp
      exact hc
    | cons r rest2 =>
      show c ∈ q ++ sep ++ joinWith sep (r :: rest2)
      rcases List.mem_cons.mp hp with h | h
      · subst h
        simp [hc]
      · simp [ih h]

theorem splitOn_mem_part (sep c : Char) (cs : List Char) (hc : c ∈ cs)
    (hne : c ≠ sep) : ∃ p ∈ cs.splitOn sep, c ∈ p := by
  induction cs with
  | nil => cases hc
  | cons x xs ih =>
    unfold List.splitOn at *
    rw [List.splitOnP_cons]
    by_cases hx : x = sep
    · subst hx
      rw [if_pos (by simp)]
      rcases List.mem_cons.mp hc with h | h
      · exact absurd h hne
      · obtain ⟨p, hp, hcp⟩ := ih h
        exact ⟨p, List.mem_cons_of_mem _ hp, hcp⟩
    · rw [if_neg (by simpa using hx)]
      obtain ⟨hd, tl, hsplit⟩ :=
        List.exists_cons_of_ne_nil (List.splitOnP_ne_nil (p := (· == sep)) xs)
      rw [hsplit, List.modifyHead_cons]
      rcases List.mem_cons.mp hc with h | h
      · subst h
        exact ⟨c :: hd, List.mem_cons_self _ _, List.mem_cons_self _ _⟩
      · obtain ⟨p, hp, hcp⟩ := ih h
        rw [hsplit] at hp
        rcases List.mem_cons.mp hp with h2 | h2
        · subst h2
          exact ⟨x :: p, List.mem_cons_self _ _, List.mem_cons_of_mem _ hcp⟩
        · exact ⟨p, List.mem_cons_of_mem _ h2, hcp⟩

theorem findColonColon_cons₂ (c1 c2 : Char) (rest : List Char) :
    findColonColon (c1 :: c2 :: rest) =
      if c1 = ':' ∧ c2 = ':' then some ([], rest)
      else
        match findColonColon (c2 :: rest) with
        | some (l, r) => some (c1 :: l, r)
        | none => none := by
  rfl

theorem findCC_colonfree (p : List Char) (hp : ∀ c ∈ p, c ≠ ':') :
    findColonColon p = none := by
  induction p with
  | nil => rfl
  | cons c cs ih =>
    cases cs with
    | nil => rfl
    | cons c2 cs2 =>
      rw [findColonColon_cons₂,
        if_neg (fun hcc => hp c (List.mem_cons_self _ _) hcc.1),
        ih (fun x hx => hp x (List.mem_cons_of_mem _ hx))]

theorem findCC_colonfree_sep (p : List Char) (hp : ∀ c ∈ p, c ≠ ':') :
    findColonColon (p ++ [':']) = none := by
  induction p with
  | nil => rfl
  | cons c cs ih =>
    cases cs with
    | nil =>
      show findColonColon (c :: ':' :: []) = none
      rw [findColonColon_cons₂,
        if_neg (fun hcc => hp c (List.mem_cons_self _ _) hcc.1)]
      rfl
    | cons c2 cs2 =>
      show findColonColon (c :: (c2 :: cs2 ++ [':'])) = none
      rw [show (c2 :: cs2 ++ [':'] : List Char) = c2 :: (cs2 ++ [':']) from rfl,
        findColonColon_cons₂,
        if_neg (fun hcc => hp c (List.mem_cons_self _ _) hcc.1)]
      have := ih (fun x hx => hp x (List.mem_cons_of_mem _ hx))
      rw [show ((c2 :: cs2) ++ [':'] : List Char) = c2 :: (cs2 ++ [':']) from rfl] at this
      rw [this]

theorem findCC_cf_sep_mid (p q : List Char) (hp : ∀ c ∈ p, c ≠ ':')
    (hq : findColonColon (':' :: q) = none) :
    findColonColon (p ++ ':' :: q) = none := by
  induction p with
  | nil => exact hq
  | cons c cs ih =>
    have hcne := hp c (List.mem_cons_self _ _)
    have ih2 := ih (fun x hx => hp x (List.mem_cons_of_mem _ hx))
    cases cs with
    | nil =>
      show findColonColon (c :: ':' :: q) = none
      rw [findColonColon_cons₂, if_neg (fun hcc => hcne hcc.1), hq]
    | cons c2 cs2 =>
      show findColonColon (c :: (c2 :: (cs2 ++ ':' :: q))) = none
      rw [findColonColon_cons₂, if_neg (fun hcc => hcne hcc.1)]
      rw [show ((c2 :: cs2) ++ ':' :: q : List Char) = c2 :: (cs2 ++ ':' :: q) from rfl] at ih2
      rw [ih2]

theorem findCC_append (l r : List Char)
    (hl : findColonColon (l ++ [':']) = none) :
    findColonColon (l ++ ':' :: ':' :: r) = some (l, r) := by
  induction l with
  | nil =>
    show findColonColon (':' :: ':' :: r) = some ([], r)
    rw [findColonColon_cons₂, if_pos ⟨rfl, rfl⟩]
  | cons c cs ih =>
    cases cs with
    | nil =>
      have hcne : c ≠ ':' := by
        intro hc
        subst hc
        rw [show (([':'] : List Char) ++ [':']) = ':' :: ':' :: [] from rfl,
          findColonColon_cons₂, if_pos ⟨rfl, rfl⟩] at hl
        cases hl
      show findColonColon (c :: ':' :: ':' :: r) = some (c :: [], r)
      rw [findColonColon_cons₂, if_neg (fun hcc => hcne hcc.1),
        findColonColon_cons₂, if_pos ⟨rfl, rfl⟩]
    | cons c2 cs2 =>
      rw [show ((c :: c2 :: cs2) ++ [':'] : List Char) = c :: c2 :: (cs2 ++ [':']) from rfl,
        findColonColon_cons₂] at hl
      have hncc : ¬(c = ':' ∧ c2 = ':') := by
        intro hcc
        rw [if_pos hcc] at hl
        cases hl
      rw [if_neg hncc] at hl
      have htail : findColonColon (c2 :: (cs2 ++ [':'])) = none := by
        cases hfind : findColonColon (c2 :: (cs2 ++ [':'])) with
        | none => rfl
        | some v =>
          rw [hfind] at hl
          cases v
          cases hl
      rw [show ((c2 :: cs2) ++ [':'] : List Char) = c2 :: (cs2 ++ [':']) from rfl] at ih
      have ih2 := ih htail
      show findColonColon (c :: c2 :: (cs2 ++ ':' :: ':' :: r)) = some (c :: c2 :: cs2, r)
      rw [findColonColon_cons₂, if_neg hncc]
      rw [show ((c2 :: cs2) ++ ':' :: ':' :: r : List Char) =
        c2 :: (cs2 ++ ':' :: ':' :: r) from rfl] at ih2
      rw [ih2]

theorem findCC_join (parts : List (List Char)) (hne : parts ≠ [])
    (hps : ∀ p ∈ parts, p ≠ [] ∧ ∀ c ∈ p, c ≠ ':') :
    findColonColon (joinWith [':'] parts) = none := by
  induction parts with
  | nil => exact absurd rfl hne
  | cons p rest ih =>
    cases rest with
    | nil => exact findCC_colonfree p (hps p (List.mem_cons_self _ _)).2
    | cons q rest2 =>
      show findColonColon (p ++ [':'] ++ joinWith [':'] (q :: rest2)) = none
      rw [List.append_assoc, List.singleton_append]
      apply findCC_cf_sep_mid p _ (hps p (List.mem_cons_self _ _)).2
      obtain ⟨q0, q', hq⟩ := List.exists_cons_of_ne_nil
        (hps q (List.mem_cons_of_mem _ (List.mem_cons_self _ _))).1
      have hjoin : ∃ tail, joinWith [':'] (q :: rest2) = q0 :: tail := by
        cases rest2 with
        | nil => exact ⟨q', by simp [joinWith, hq]⟩
        | cons r rest3 =>
          refine ⟨q' ++ [':'] ++ joinWith [':'] (r :: rest3), ?_⟩
          show q ++ [':'] ++ joinWith [':'] (r :: rest3) = _
          simp [hq]
      obtain ⟨tail, htail⟩ := hjoin
      have hq0 : q0 ≠ ':' := by
        refine (hps q (List.mem_cons_of_mem _ (List.mem_cons_self _ _))).2 q0 ?_
        rw [hq]
        exact List.mem_cons_self _ _
      rw [htail, findColonColon_cons₂, if_neg (fun hcc => hq0 hcc.2), ← htail,
        ih (by simp) (fun x hx => hps x (List.mem_cons_of_mem _ hx))]

theorem findCC_join_sep (parts : List (List Char))
    (hps : ∀ p ∈ parts, p ≠ [] ∧ ∀ c ∈ p, c ≠ ':') :
    findColonColon (joinWith [':'] parts ++ [':']) = none := by
  induction parts with
  | nil => rfl
  | cons p rest ih =>
    cases rest with
    | nil => exact findCC_colonfree_sep p (hps p (List.mem_cons_self _ _)).2
    | cons q rest2 =>
      show findColonColon (p ++ [':'] ++ joinWith [':'] (q :: rest2) ++ [':']) = none
      rw [List.append_assoc, List.append_assoc, List.singleton_append]
      apply findCC_cf_sep_mid p _ (hps p (List.mem_cons_self _ _)).2
      obtain ⟨q0, q', hq⟩ := List.exists_cons_of_ne_nil
        (hps q (List.mem_cons_of_mem _ (List.mem_cons_self _ _))).1
      have hjoin : ∃ tail, joinWith [':'] (q :: rest2) = q0 :: tail := by
        cases rest2 with
        | nil => exact ⟨q', by simp [joinWith, hq]⟩
        | cons r rest3 =>
          refine ⟨q' ++ [':'] ++ joinWith [':'] (r :: rest3), ?_⟩
          show q ++ [':'] ++ joinWith [':'] (r :: rest3) = _
          simp [hq]
      obtain ⟨tail, htail⟩ := hjoin
      have hq0 : q0 ≠ ':' := by
        refine (hps q (List.mem_cons_of_mem _ (List.mem_cons_self _ _))).2 q0 ?_
        rw [hq]
        exact List.mem_cons_self _ _
      have ih2 := ih (fun x hx => hps x (List.mem_cons_of_mem _ hx))
      rw [htail]
      rw [htail, List.cons_append] at ih2
      rw [show (q0 :: tail ++ [':'] : List Char) = q0 :: (tail ++ [':']) from rfl,
        findColonColon_cons₂, if_neg (fun hcc => hq0 hcc.2)]
      rw [ih2]

theorem parseGroupParts_hex (v4Tail : Bool) (gs : List Nat)
    (hgs : ∀ g ∈ gs, g < 65536) :
    parseGroupParts v4Tail (gs.map natHexChars) = some gs := by
  induction gs with
  | nil => rfl
  | cons g rest ih =>
    cases rest with
    | nil =>
      show parseGroupParts v4Tail [natHexChars g] = some [g]
      unfold parseGroupParts
      rw [parseHexGroup_natHexChars g (hgs g (List.mem_cons_self _ _))]
    | cons g2 rest2 =>
      have ih2 := ih (fun x hx => hgs x (List.mem_cons_of_mem _ hx))
      show parseGroupParts v4Tail
        (natHexChars g :: natHexChars g2 :: rest2.map natHexChars) = some (g :: g2 :: rest2)
      unfold parseGroupParts
      rw [parseHexGroup_natHexChars g (hgs g (List.mem_cons_self _ _))]
      rw [show (natHexChars g2 :: rest2.map natHexChars) =
        (g2 :: rest2).map natHexChars from rfl, ih2]
      rfl

theorem natHexChars_no_colon (g : Nat) : ':' ∉ natHexChars g := by
  intro hc
  exact (hexRange_ne ':' (natHexChars_range g ':' hc)).1 rfl

theorem parseGroupSide_join (v4Tail : Bool) (gs : List Nat)
    (hgs : ∀ g ∈ gs, g < 65536) :
    parseGroupSide v4Tail (joinHexGroups gs) = some gs := by
  cases gs with
  | nil => rfl
  | cons g rest =>
    unfold parseGroupSide joinHexGroups
    rw [if_neg, splitOn_joinWith ':' _ ?hsep (by simp)]
    · exact parseGroupParts_hex v4Tail _ hgs
    case hsep =>
      intro p hp
      obtain ⟨x, _, rfl⟩ := List.mem_map.mp hp
      exact natHexChars_no_colon x
    · have hnn := joinWith_ne_nil [':'] ((g :: rest).map natHexChars) (by simp)
        (by
          intro p hp
          obtain ⟨x, _, rfl⟩ := List.mem_map.mp hp
          exact natHexChars_ne_nil x)
      simpa using hnn

theorem foldl_preserve {β γ : Type} (P : β → Prop) (f : β → γ → β)
    (xs : List γ) (init : β) (hinit : P init)
    (hstep : ∀ b x, x ∈ xs → P b → P (f b x)) : P (xs.foldl f init) := by
  induction xs generalizing init with
  | nil => exact hinit
  | cons x xs ih =>
    exact ih (f init x) (hstep init x (List.mem_cons_self _ _) hinit)
      (fun b y hy hb => hstep b y (List.mem_cons_of_mem _ hy) hb)

theorem prefix_get? {α : Type} (l1 l2 : List α) (h : l1 <+: l2) (k : Nat)
    (hk : k < l1.length) : l2.get? k = l1.get? k := by
  obtain ⟨t, rfl⟩ := h
  exact List.get?_append hk

theorem zeroRunLenAt_spec (l : List Nat) (s : Nat) :
    zeroRunLenAt l s ≤ l.length - s ∧
      ∀ k < zeroRunLenAt l s, l.get? (s + k) = some 0 := by
  constructor
  · calc zeroRunLenAt l s ≤ (l.drop s).length :=
      ( List.takeWhile_prefix _).length_le
    _ = l.length - s := List.length_drop s l
  · intro k hk
    unfold zeroRunLenAt at hk
    have h1 : (l.drop s).get? k =
        ((l.drop s).takeWhile fun seg => seg = 0).get? k :=
      prefix_get? _ _ ( List.takeWhile_prefix _) k hk
    have h2 : ∃ x, ((l.drop s).takeWhile fun seg => seg = 0).get? k = some x := by
      refine ⟨((l.drop s).takeWhile fun seg => seg = 0).get ⟨k, hk⟩, ?_⟩
      rw [List.get?_eq_getElem?, List.getElem?_eq_getElem hk]
      rfl
    obtain ⟨x, hx⟩ := h2
    have hx0 : x = 0 := by
      have hmem := List.get?_mem hx
      have := List.mem_takeWhile_imp hmem
      simpa using this
    rw [List.get?_drop] at h1
    rw [h1, hx, hx0]

theorem longestZeroRun_spec (l : List Nat) :
    (longestZeroRun l).1 + (longestZeroRun l).2 ≤ l.length ∧
      ∀ k < (longestZeroRun l).2, l.get? ((longestZeroRun l).1 + k) = some 0 := by
  unfold longestZeroRun
  apply foldl_preserve
    (P := fun best : Nat × Nat =>
      best.1 + best.2 ≤ l.length ∧ ∀ k < best.2, l.get? (best.1 + k) = some 0)
  · exact ⟨by simp, by omega⟩
  · intro b s hs hb
    dsimp only
    split
    · have hslt : s < l.length := List.mem_range.mp hs
      have := zeroRunLenAt_spec l s
      exact ⟨by omega, this.2⟩
    · exact hb

theorem natDecChars_no_dot (n : Nat) : '.' ∉ natDecChars n := by
  intro hc
  exact (decRange_ne '.' (natDecChars_range n '.' hc)).2.1 rfl

theorem parseIpv4Chars_ipv4Chars (ip : Ipv4Addr) (ha : ip.a ≤ 255)
    (hb : ip.b ≤ 255) (hc : ip.c ≤ 255) (hd : ip.d ≤ 255) :
    parseIpv4Chars (ipv4Chars ip) = some ip := by
  unfold parseIpv4Chars ipv4Chars
  rw [splitOn_joinWith '.' _ ?hsep (by simp)]
  case hsep =>
    intro p hp
    simp only [List.mem_cons, List.mem_singleton] at hp
    rcases hp with rfl | rfl | rfl | rfl | h
    · exact natDecChars_no_dot _
    · exact natDecChars_no_dot _
    · exact natDecChars_no_dot _
    · exact natDecChars_no_dot _
    · cases h
  rw [show [natDecChars ip.a, natDecChars ip.b, natDecChars ip.c, natDecChars ip.d].mapM
      parseOctet =
      (do
        let a ← parseOctet (natDecChars ip.a)
        let b ← parseOctet (natDecChars ip.b)
        let c ← parseOctet (natDecChars ip.c)
        let d ← parseOctet (natDecChars ip.d)
        pure [a, b, c, d]) from rfl]
  rw [parseOctet_natDecChars ip.a ha, parseOctet_natDecChars ip.b hb,
    parseOctet_natDecChars ip.c hc, parseOctet_natDecChars ip.d hd]
  rfl

theorem foldDigitsAcc_some_valid (val : Char → Option Nat) (base : Nat)
    (cs : List Char) : ∀ acc v, foldDigitsAcc val base acc cs = some v →
    ∀ c ∈ cs, (val c).isSome := by
  induction cs with
  | nil =>
    intro acc v _ c hc
    cases hc
  | cons x xs ih =>
    intro acc v h c hc
    unfold foldDigitsAcc at h
    cases hval : val x with
    | none =>
      rw [hval] at h
      cases h
    | some d =>
      rw [hval] at h
      rcases List.mem_cons.mp hc with rfl | hmem
      · simp [hval]
      · exact ih _ _ h c hmem

theorem parseOctet_all_dec (p : List Char) (v : Nat) (h : parseOctet p = some v) :
    ∀ c ∈ p, (decVal c).isSome := by
  unfold parseOctet at h
  split at h
  · cases h
  · split at h
    · cases h
    · revert h
      cases hfold : foldDigits decVal 10 p with
      | none =>
        intro h
        cases h
      | some w =>
        intro _
        exact foldDigitsAcc_some_valid decVal 10 p 0 w hfold

theorem mapM_option_mem {α β : Type} (f : α → Option β) (xs : List α)
    (l : List β) (h : xs.mapM f = some l) : ∀ x ∈ xs, ∃ v, f x = some v := by
  induction xs generalizing l with
  | nil =>
    intro x hx
    cases hx
  | cons y ys ih =>
    intro x hx
    rw [List.mapM_cons] at h
    cases hfy : f y with
    | none =>
      rw [hfy] at h
      cases h
    | some w =>
      rw [hfy] at h
      cases hfys : ys.mapM f with
      | none =>
        rw [hfys] at h
        cases h
      | some ws =>
        rcases List.mem_cons.mp hx with rfl | hmem
        · exact ⟨w, hfy⟩
        · exact ih ws hfys x hmem

theorem parseIpv4Chars_of_colon (cs : List Char) (h : ':' ∈ cs) :
    parseIpv4Chars cs = none := by
  unfold parseIpv4Chars
  cases hmap : (cs.splitOn '.').mapM parseOctet with
  | none => rfl
  | some l =>
    obtain ⟨p, hp, hcp⟩ := splitOn_mem_part '.' ':' cs h (by decide)
    obtain ⟨v, hv⟩ := mapM_option_mem parseOctet _ l hmap p hp
    have := parseOctet_all_dec p v hv ':' hcp
    simp [decVal] at this

theorem ipv4Chars_length_ge (x : Ipv4Addr) : 7 ≤ (ipv4Chars x).length := by
  show 7 ≤ (natDecChars x.a ++ ['.'] ++
    (natDecChars x.b ++ ['.'] ++ (natDecChars x.c ++ ['.'] ++ natDecChars x.d))).length
  have ha := List.length_pos.mpr (natDecChars_ne_nil x.a)
  have hb := List.length_pos.mpr (natDecChars_ne_nil x.b)
  have hc := List.length_pos.mpr (natDecChars_ne_nil x.c)
  have hd := List.length_pos.mpr (natDecChars_ne_nil x.d)
  simp only [List.length_append, List.length_singleton]
  omega

theorem dot_mem_ipv4Chars (x : Ipv4Addr) : '.' ∈ ipv4Chars x := by
  show '.' ∈ natDecChars x.a ++ ['.'] ++
    (natDecChars x.b ++ ['.'] ++ (natDecChars x.c ++ ['.'] ++ natDecChars x.d))
  simp

theorem ipv4Chars_no_colon (x : Ipv4Addr) : ':' ∉ ipv4Chars x := by
  intro h
  have hshape : ipv4Chars x = natDecChars x.a ++ ['.'] ++
      (natDecChars x.b ++ ['.'] ++ (natDecChars x.c ++ ['.'] ++ natDecChars x.d)) := rfl
  rw [hshape] at h
  simp only [List.mem_append, List.mem_singleton] at h
  have hno : ∀ n, ':' ∉ natDecChars n := by
    intro n hc
    exact (decRange_ne ':' (natDecChars_range n ':' hc)).1 rfl
  rcases h with ((h | h) | (h | h) | (h | h) | h) <;>
    first
      | exact hno _ h
      | exact absurd h (by decide)

theorem parseHexGroup_of_long (cs : List Char) (h : 4 < cs.length) :
    parseHexGroup cs = none := by
  unfold parseHexGroup
  rw [if_pos (Or.inr h)]

theorem ipv6OfGroups_segments (ip : Ipv6Addr) :
    ipv6OfGroups ip.segments = some ip := rfl

theorem parseGroupSide_mapped_tail (w : List Char) (v4 : Ipv4Addr)
    (hw : parseIpv4Chars w = some v4) (hlen : 7 ≤ w.length)
    (hdot : '.' ∈ w) (hcolon : ':' ∉ w) :
    parseGroupSide true (['f', 'f', 'f', 'f'] ++ ':' :: w) =
      some [65535, v4.a * 256 + v4.b, v4.c * 256 + v4.d] := by
  unfold parseGroupSide
  rw [if_neg (by simp)]
  rw [splitOn_sep_append ':' ['f', 'f', 'f', 'f'] w (by decide),
    splitOn_of_not_mem ':' w hcolon]
  show parseGroupParts true (['f', 'f', 'f', 'f'] :: [w]) = _
  unfold parseGroupParts
  rw [show parseHexGroup ['f', 'f', 'f', 'f'] = some 65535 by decide]
  unfold parseGroupParts
  rw [parseHexGroup_of_long w (by omega), if_pos ⟨rfl, List.elem_iff.mpr hdot⟩, hw]
  rfl

theorem parseIpv6_mapped (ip : Ipv6Addr) (h0 : ip.g0 = 0) (h1 : ip.g1 = 0)
    (h2 : ip.g2 = 0) (h3 : ip.g3 = 0) (h4 : ip.g4 = 0) (h5 : ip.g5 = 65535)
    (h6 : ip.g6 < 65536) (h7 : ip.g7 < 65536) :
    parseIpv6Chars ([':', ':', 'f', 'f', 'f', 'f', ':'] ++
      ipv4Chars ⟨ip.g6 / 256, ip.g6 % 256, ip.g7 / 256, ip.g7 % 256⟩) = some ip := by
  set v4 : Ipv4Addr := ⟨ip.g6 / 256, ip.g6 % 256, ip.g7 / 256, ip.g7 % 256⟩ with hv4
  have hfind : findColonColon ([':', ':', 'f', 'f', 'f', 'f', ':'] ++ ipv4Chars v4) =
      some ([], ['f', 'f', 'f', 'f'] ++ ':' :: ipv4Chars v4) := by
    show findColonColon (':' :: ':' :: (['f', 'f', 'f', 'f'] ++ ':' :: ipv4Chars v4)) = _
    rw [findColonColon_cons₂, if_pos ⟨rfl, rfl⟩]
  have hparse : parseIpv4Chars (ipv4Chars v4) = some v4 := by
    apply parseIpv4Chars_ipv4Chars <;> (simp only [hv4]; omega)
  unfold parseIpv6Chars
  rw [hfind]
  show (do
    let heads ← parseGroupSide false []
    let tails ← parseGroupSide true (['f', 'f', 'f', 'f'] ++ ':' :: ipv4Chars v4)
    if heads.length + tails.length ≤ 7 then
      ipv6OfGroups (heads ++ List.replicate (8 - heads.length - tails.length) 0 ++ tails)
    else none) = some ip
  rw [show parseGroupSide false [] = some [] from rfl,
    parseGroupSide_mapped_tail (ipv4Chars v4) v4 hparse (ipv4Chars_length_ge v4)
      (dot_mem_ipv4Chars v4) (ipv4Chars_no_colon v4)]
  have hab : v4.a * 256 + v4.b = ip.g6 := by
    simp only [hv4]
    omega
  have hcd : v4.c * 256 + v4.d = ip.g7 := by
    simp only [hv4]
    omega
  simp only [Option.bind_eq_bind, Option.some_bind, hab, hcd]
  rw [if_pos (by simp)]
  show some (⟨0, 0, 0, 0, 0, 65535, ip.g6, ip.g7⟩ : Ipv6Addr) = some ip
  rw [show (⟨0, 0, 0, 0, 0, 65535, ip.g6, ip.g7⟩ : Ipv6Addr) = ip by
    cases ip
    simp_all]

theorem joinHexGroups_parts_ok (gs : List Nat) :
    ∀ p ∈ gs.map natHexChars, p ≠ [] ∧ ∀ c ∈ p, c ≠ ':' := by
  intro p hp
  obtain ⟨g, _, rfl⟩ := List.mem_map.mp hp
  exact ⟨natHexChars_ne_nil g, fun c hc heq =>
    natHexChars_no_colon g (heq ▸ hc)⟩

theorem parseIpv6_compressed (segs : List Nat) (ip : Ipv6Addr)
    (hsegs : segs = ip.segments) (hv : ∀ g ∈ segs, g < 65536)
    (s n : Nat) (hrun : longestZeroRun segs = (s, n)) (hn : 1 < n) :
    parseIpv6Chars (joinHexGroups (segs.take s) ++ [':', ':'] ++
      joinHexGroups (segs.drop (s + n))) = some ip := by
  have hlen : segs.length = 8 := by
    rw [hsegs]
    rfl
  have hspec := longestZeroRun_spec segs
  rw [hrun] at hspec
  obtain ⟨hbound, hzero⟩ := hspec
  simp only [hlen] at hbound
  have hH : ∀ g ∈ segs.take s, g < 65536 :=
    fun g hg => hv g (List.take_subset _ _ hg)
  have hT : ∀ g ∈ segs.drop (s + n), g < 65536 :=
    fun g hg => hv g (List.drop_subset _ _ hg)
  have hfind : findColonColon (joinHexGroups (segs.take s) ++ [':', ':'] ++
      joinHexGroups (segs.drop (s + n))) =
      some (joinHexGroups (segs.take s), joinHexGroups (segs.drop (s + n))) := by
    rw [List.append_assoc,
      show ([':', ':'] ++ joinHexGroups (segs.drop (s + n)) : List Char) =
        ':' :: ':' :: joinHexGroups (segs.drop (s + n)) from rfl]
    exact findCC_append _ _ (findCC_join_sep _ (joinHexGroups_parts_ok _))
  unfold parseIpv6Chars
  rw [hfind]
  show (do
    let heads ← parseGroupSide false (joinHexGroups (segs.take s))
    let tails ← parseGroupSide true (joinHexGroups (segs.drop (s + n)))
    if heads.length + tails.length ≤ 7 then
      ipv6OfGroups (heads ++ List.replicate (8 - heads.length - tails.length) 0 ++ tails)
    else none) = some ip
  rw [parseGroupSide_join false _ hH, parseGroupSide_join true _ hT]
  simp only [Option.bind_eq_bind, Option.some_bind]
  have hlentake : (segs.take s).length = s := by
    rw [List.length_take]
    omega
  have hlendrop : (segs.drop (s + n)).length = 8 - (s + n) := by
    rw [List.length_drop, hlen]
  rw [hlentake, hlendrop, if_pos (by omega)]
  have hmid : (segs.drop s).take n = List.replicate n 0 := by
    rw [List.eq_replicate]
    constructor
    · rw [List.length_take, List.length_drop, hlen]
      omega
    · intro b hb
      obtain ⟨i, hget⟩ := List.mem_iff_get?.mp hb
      have hi : i < n := by
        by_contra hge
        rw [List.get?_eq_none.mpr] at hget
        · cases hget
        · rw [List.length_take]
          omega
      rw [List.get?_take hi, List.get?_drop, hzero i hi] at hget
      exact (Option.some.inj hget).symm
  have hrecon : segs.take s ++ List.replicate (8 - s - (8 - (s + n))) 0 ++
      segs.drop (s + n) = segs := by
    rw [show 8 - s - (8 - (s + n)) = n by omega, ← hmid]
    rw [show segs.drop (s + n) = (segs.drop s).drop n by
      rw [List.drop_drop, Nat.add_comm]]
    rw [List.append_assoc, List.take_append_drop, List.take_append_drop]
  rw [hrecon, hsegs]
  exact ipv6OfGroups_segments ip

theorem parseIpv6_plain (segs : List Nat) (ip : Ipv6Addr)
    (hsegs : segs = ip.segments) (hv : ∀ g ∈ segs, g < 65536) :
    parseIpv6Chars (joinHexGroups segs) = some ip := by
  have hlen : segs.length = 8 := by
    rw [hsegs]
    rfl
  have hne : segs ≠ [] := by
    intro h
    rw [h] at hlen
    cases hlen
  unfold parseIpv6Chars joinHexGroups
  rw [findCC_join (segs.map natHexChars) (by simpa using hne)
    (joinHexGroups_parts_ok segs)]
  show (do
    let gs ← parseGroupParts true ((joinWith [':'] (segs.map natHexChars)).splitOn ':')
    if gs.length = 8 then ipv6OfGroups gs else none) = some ip
  rw [splitOn_joinWith ':' _
    (fun p hp hc => ((joinHexGroups_parts_ok segs) p hp).2 ':' hc rfl)
    (by simpa using hne)]
  rw [parseGroupParts_hex true segs hv]
  simp only [Option.bind_eq_bind, Option.some_bind]
  rw [if_pos hlen, hsegs]
  exact ipv6OfGroups_segments ip

theorem parseIpv6Chars_ipv6Chars (ip : Ipv6Addr)
    (hv : ∀ g ∈ ip.segments, g < 65536) :
    parseIpv6Chars (ipv6Chars ip) = some ip := by
  have h6 : ip.g6 < 65536 := hv ip.g6 (by simp [Ipv6Addr.segments])
  have h7 : ip.g7 < 65536 := hv ip.g7 (by simp [Ipv6Addr.segments])
  by_cases hmap : ip.g0 = 0 ∧ ip.g1 = 0 ∧ ip.g2 = 0 ∧ ip.g3 = 0 ∧ ip.g4 = 0 ∧
      ip.g5 = 0xffff
  · unfold ipv6Chars
    rw [if_pos hmap]
    exact parseIpv6_mapped ip hmap.1 hmap.2.1 hmap.2.2.1 hmap.2.2.2.1
      hmap.2.2.2.2.1 hmap.2.2.2.2.2 h6 h7
  · unfold ipv6Chars
    rw [if_neg hmap]
    show parseIpv6Chars
      (if (longestZeroRun ip.segments).2 > 1 then
        joinHexGroups (ip.segments.take (longestZeroRun ip.segments).1) ++ [':', ':'] ++
          joinHexGroups (ip.segments.drop
            ((longestZeroRun ip.segments).1 + (longestZeroRun ip.segments).2))
      else joinHexGroups ip.segments) = some ip
    by_cases hrun : (longestZeroRun ip.segments).2 > 1
    · rw [if_pos hrun]
      exact parseIpv6_compressed ip.segments ip rfl hv
        (longestZeroRun ip.segments).1 (longestZeroRun ip.segments).2
        Prod.mk.eta.symm hrun
    · rw [if_neg hrun]
      exact parseIpv6_plain ip.segments ip rfl hv

theorem colon_mem_ipv6Chars (ip : Ipv6Addr) : ':' ∈ ipv6Chars ip := by
  unfold ipv6Chars
  split
  · simp
  · show ':' ∈
      (if (longestZeroRun ip.segments).2 > 1 then
        joinHexGroups (ip.segments.take (longestZeroRun ip.segments).1) ++ [':', ':'] ++
          joinHexGroups (ip.segments.drop
            ((longestZeroRun ip.segments).1 + (longestZeroRun ip.segments).2))
      else joinHexGroups ip.segments)
    split
    · simp
    · show ':' ∈ joinWith [':'] (ip.segments.map natHexChars)
      have : ip.segments.map natHexChars =
          natHexChars ip.g0 :: natHexChars ip.g1 :: natHexChars ip.g2 ::
          natHexChars ip.g3 :: natHexChars ip.g4 :: natHexChars ip.g5 ::
          natHexChars ip.g6 :: [natHexChars ip.g7] := rfl
      rw [this]
      show ':' ∈ natHexChars ip.g0 ++ [':'] ++ joinWith [':'] _
      simp

theorem parseIpChars_roundtrip (a : IpAddr)
    (hval : match a with
      | IpAddr.v4 ip => ip.a ≤ 255 ∧ ip.b ≤ 255 ∧ ip.c ≤ 255 ∧ ip.d ≤ 255
      | IpAddr.v6 ip => ∀ g ∈ ip.segments, g < 65536) :
    parseIpChars (ipChars a) = some a := by
  cases a with
  | v4 ip =>
    unfold parseIpChars ipChars
    rw [parseIpv4Chars_ipv4Chars ip hval.1 hval.2.1 hval.2.2.1 hval.2.2.2]
  | v6 ip =>
    unfold parseIpChars ipChars
    rw [parseIpv4Chars_of_colon _ (colon_mem_ipv6Chars ip),
      parseIpv6Chars_ipv6Chars ip hval]

theorem splitLast_not_mem (sep : Char) (l : List Char) (h : sep ∉ l) :
    splitLast sep l = none := by
  induction l with
  | nil => rfl
  | cons c cs ih =>
    unfold splitLast
    rw [ih (fun hc => h (List.mem_cons_of_mem _ hc)),
      if_neg (fun hc => h (by rw [← hc] at *; exact List.mem_cons_self _ _))]

theorem splitLast_append (sep : Char) (l r : List Char) (h : sep ∉ r) :
    splitLast sep (l ++ sep :: r) = some (l, r) := by
  induction l with
  | nil =>
    show splitLast sep (sep :: r) = some ([], r)
    unfold splitLast
    rw [splitLast_not_mem sep r h, if_pos rfl]
  | cons c cs ih =>
    show splitLast sep (c :: (cs ++ sep :: r)) = some (c :: cs, r)
    unfold splitLast
    rw [ih]

theorem rustParseU16_natDecChars (p : Nat) (hp : p < 65536) :
    rustParseU16 (natDecChars p) = some p := by
  obtain ⟨c, cs, hcons⟩ := List.exists_cons_of_ne_nil (natDecChars_ne_nil p)
  have hcdigit : '0' ≤ c ∧ c ≤ '9' := by
    apply natDecChars_range p
    rw [hcons]
    exact List.mem_cons_self _ _
  have hplus : c ≠ '+' := (decRange_ne c hcdigit).2.2.2
  unfold rustParseU16
  rw [hcons]
  have hmatch : (match c :: cs with
      | '+' :: rest => rest
      | other => other) = c :: cs := by
    split
    · rename_i heq
      rw [List.cons.injEq] at heq
      exact absurd heq.1 hplus
    · rfl
  rw [hmatch]
  simp only [List.isEmpty_cons, Bool.false_eq_true, if_false]
  rw [← hcons, foldDigits_natDecChars]
  show (if p ≤ 65535 then some p else none) = some p
  rw [if_pos (by omega)]

theorem colon_not_mem_natDecChars (n : Nat) : ':' ∉ natDecChars n := by
  intro hc
  exact (decRange_ne ':' (natDecChars_range n ':' hc)).1 rfl

theorem parse_endpoint_to_compact (ep : Endpoint) (hport : ep.port < 65536)
    (haddr : match ep.address with
      | AddressKind.Name hn => hn.data.headD ' ' ≠ '|'
      | AddressKind.Ip (IpAddr.v4 ip) => ip.a ≤ 255 ∧ ip.b ≤ 255 ∧ ip.c ≤ 255 ∧ ip.d ≤ 255
      | AddressKind.Ip (IpAddr.v6 ip) => ∀ g ∈ ip.segments, g < 65536) :
    parse_endpoint (to_compact_str ep) = Except.ok ep := by
  obtain ⟨addr, port⟩ := ep
  unfold parse_endpoint to_compact_str toCompactChars
  cases addr with
  | Name hn =>
    simp only []
    simp only [splitLast_append ':' hn.data _ (colon_not_mem_natDecChars port),
      rustParseU16_natDecChars port hport]
    have hpipe : hn.data.headD ' ' ≠ '|' := haddr
    split
    · rename_i heq
      rw [heq] at hpipe
      exact absurd rfl hpipe
    · cases hn
      rfl
  | Ip a =>
    simp only []
    cases a with
    | v4 ip4 =>
      simp only [splitLast_append ':' _ _ (colon_not_mem_natDecChars port),
        rustParseU16_natDecChars port hport,
        parseIpChars_roundtrip (IpAddr.v4 ip4) haddr]
    | v6 ip6 =>
      simp only [splitLast_append ':' _ _ (colon_not_mem_natDecChars port),
        rustParseU16_natDecChars port hport,
        parseIpChars_roundtrip (IpAddr.v6 ip6) haddr]

theorem parse_endpoint_no_colon (s : String) (h : ':' ∉ s.data) :
    parse_endpoint s = Except.error "missing port separator" := by
  unfold parse_endpoint
  rw [splitLast_not_mem ':' s.data h]

theorem parse_endpoint_bad_port (s : String) (l r : List Char)
    (hs : s.data = l ++ ':' :: r) (hr : ':' ∉ r) (hport : rustParseU16 r = none) :
    parse_endpoint s = Except.error "invalid port" := by
  unfold parse_endpoint
  rw [hs, splitLast_append ':' l r hr]
  simp only [hport]

theorem read_write_length_prefixed (bytes : List Nat) (h : bytes.length ≤ 65535) :
    write_length_prefixed bytes =
      RustResult.ok ((bytes.length % 256) :: (bytes.length / 256) :: bytes) ∧
    read_length_prefixed ((bytes.length % 256) :: (bytes.length / 256) :: bytes) =
      Except.ok bytes := by
  constructor
  · unfold write_length_prefixed
    rw [if_neg (by omega)]
  · unfold read_length_prefixed
    simp only []
    rw [show bytes.length % 256 + 256 * (bytes.length / 256) = bytes.length from
      Nat.mod_add_div _ _]
    unfold readChunk
    by_cases hz : bytes.length = 0
    · rw [if_pos hz, hz]
      rw [List.length_eq_zero.mp hz]
      rfl
    · rw [if_neg hz, if_neg (by
        intro hemp
        rw [List.isEmpty_iff] at hemp
        rw [hemp] at hz
        exact hz rfl)]
      rw [List.take_length]
      simp

theorem deserialize_zero_first (s : String) (rest : List Nat)
    (h : base64_nopad_decode s = some (0 :: rest)) :
    deserialize_token_set s = RustResult.ok ⟨[rest]⟩ := by
  unfold deserialize_token_set
  rw [h]
  rfl

theorem to_sql_ok (ts : TokenSet) (hcount : ts.tokens.length ≤ 127)
    (hlen : ∀ tok ∈ ts.tokens, tok.length ≤ 255) :
    ∃ p, TokenSet.to_sql ts = RustResult.ok p := by
  unfold TokenSet.to_sql
  by_cases hemp : ts.tokens.isEmpty
  · rw [if_pos hemp]
    exact ⟨SqliteParam.Null, rfl⟩
  · rw [if_neg hemp, if_neg (by
      unfold MAX_TOKENS
      omega)]
    rw [if_neg (by
      intro hcon
      rcases Bool.and_eq_true_iff.mp hcon with ⟨_, hany⟩
      obtain ⟨tok, htok, hgt⟩ := List.any_eq_true.mp hany
      have := hlen tok htok
      simp at hgt
      omega)]
    exact ⟨_, rfl⟩

set_option maxRecDepth 10000 in
/-- C1: the claim says decoding the text produced by `TokenSet::to_sql`
yields the original set for every set of at most 127 tokens of length at
most 255, in particular for two or more tokens sharing one length up to
255.  The code fails on two tokens of shared length 128: the encoder takes
the count-prefixed first byte but omits the per-token length prefixes
(`len_prefix` is `!same_len` even when the shared length exceeds 127), so
the decoder misreads the blob and errors. -/
theorem c1_tokenset_roundtrip_failure :
    ([List.replicate 128 170, List.replicate 128 187] : List (List Nat)).length ≤ 127 ∧
    (List.replicate 128 170 : List Nat).length ≤ 255 ∧
    (List.replicate 128 187 : List Nat).length ≤ 255 ∧
    ∃ t, TokenSet.to_sql ⟨[List.replicate 128 170, List.replicate 128 187]⟩ =
        RustResult.ok (SqliteParam.Text t) ∧
      deserialize_token_set t =
        RustResult.err "token length is longer than remaining binary slice" :=
  ⟨by decide, by decide, by decide, _, rfl, by decide⟩

/-- C2: the claim says `deserialize_token_set` and `ClientHandshake::read`
never panic on malformed data.  Both do: the base64 cell `"gA"` decodes to
the single byte `0x80`, whose uniform-length branch calls
`chunks_exact(0)`, which panics; and a 4-byte buffer equal to `MAGIC`
passes the magic check and then panics on the out-of-bounds `buf[4]`. -/
theorem c2_panics_on_malformed_data :
    base64_nopad_decode "gA" = some [128] ∧
    (deserialize_token_set "gA").isPanic = true ∧
    [26, 204, 202, 240] = MAGIC ∧
    (ClientHandshake.read 1 [26, 204, 202, 240]).isPanic = true := by
  decide

set_option maxRecDepth 40000 in
/-- C3: the claim says the JSONB patches on `dc.servers` are keyed by the
endpoint's textual form (`|<ip>:<port>` for an IP) and that insertion and
nulling removal use the same key.  They do not: `Server::upsert` keys the
patch by `endpoint.address.to_string()` (here `1.2.3.4`, no marker and no
port) while `Server::remove_deferred` nulls `to_compact_str(endpoint)`
(here `|1.2.3.4:2002`), so the removal never nulls the inserted key. -/
theorem c3_dc_patch_key_mismatch :
    AddressKind.toText (AddressKind.Ip (IpAddr.v4 ⟨1, 2, 3, 4⟩)) = "1.2.3.4" ∧
    to_compact_str ⟨AddressKind.Ip (IpAddr.v4 ⟨1, 2, 3, 4⟩), 2002⟩ = "|1.2.3.4:2002" ∧
    (∃ stmts,
      Server.upsert ⟨⟨0, 0, 0, 0, 0, 0xffff, 0x102, 0x304⟩, 7777⟩
        ⟨AddressKind.Ip (IpAddr.v4 ⟨1, 2, 3, 4⟩), 2002⟩ ⟨72, 72, 72, 72⟩ ⟨[[1]]⟩ [] =
        RustResult.ok stmts ∧
      stmts.length = 2 ∧
      ¬ ("\"|1.2.3.4:2002\"".data <:+: (stmts.getD 1 (Statement.Simple "")).sql.data) ∧
      ("\"1.2.3.4\"".data <:+: (stmts.getD 1 (Statement.Simple "")).sql.data)) ∧
    (Server.remove_deferred ⟨⟨0, 0, 0, 0, 0, 0xffff, 0x102, 0x304⟩, 7777⟩
        ⟨AddressKind.Ip (IpAddr.v4 ⟨1, 2, 3, 4⟩), 2002⟩ []).length = 2 ∧
    ("\"|1.2.3.4:2002\"".data <:+:
      ((Server.remove_deferred ⟨⟨0, 0, 0, 0, 0, 0xffff, 0x102, 0x304⟩, 7777⟩
        ⟨AddressKind.Ip (IpAddr.v4 ⟨1, 2, 3, 4⟩), 2002⟩ []).getD 1
          (Statement.Simple "")).sql.data) :=
  ⟨by decide, by decide, ⟨_, rfl, by decide, by decide, by decide⟩, by decide, by decide⟩

/-- C5: the claim says a decoded blob whose first byte is 0 is treated as
invalid.  It is not: the first byte 0 falls into the final `else` branch
(shared with first byte 1), which drops the byte and returns the remainder
as a single token — for `"AA"` (blob `[0x00]`) the set holding the empty
token, not an error. -/
theorem c5_zero_first_byte_counterexample :
    base64_nopad_decode "AA" = some [0] ∧
    deserialize_token_set "AA" = RustResult.ok ⟨[[]]⟩ ∧
    (deserialize_token_set "AA").isErr = false := by
  decide

/-- C5 (amended): for every text whose base64-decoded blob is non-empty
with first byte 0, `deserialize_token_set` returns Ok with the set holding
the remainder of the blob as a single token, exactly as for first byte 1;
it does not reject the input. -/
theorem c5_zero_first_byte_amended :
    ∀ (s : String) (rest : List Nat), base64_nopad_decode s = some (0 :: rest) →
      deserialize_token_set s = RustResult.ok ⟨[rest]⟩ :=
  deserialize_zero_first

/-- C5 witness: the amended claim at the concrete cell `"AA"`. -/
theorem c5_zero_first_byte_witness :
    deserialize_token_set "AA" = RustResult.ok ⟨[[]]⟩ :=
  c5_zero_first_byte_amended "AA" [] (by decide)

/-- C7: the claim says `Server::update` with neither column set is rejected
by a debug assertion.  It is not: the function has no assertion (only
`Datacenter::update` does) and silently emits `UPDATE servers SET  WHERE
rowid = …` with an empty SET list. -/
theorem c7_update_missing_assertion :
    Server.update ⟨⟨AddressKind.Name "a", 80⟩, none, none⟩ [] =
      RustResult.ok [Statement.WithParams
        "UPDATE servers SET  WHERE rowid = (SELECT MIN(rowid) FROM servers WHERE endpoint = ?)"
        [SqliteParam.Text "a:80"]] ∧
    (Server.update ⟨⟨AddressKind.Name "a", 80⟩, none, none⟩ []).isPanic = false ∧
    (Datacenter.update ⟨⟨0, 0, 0, 0, 0, 0, 0, 1⟩, 1⟩ none none []).isPanic = true := by
  decide

/-- C10: every `ErrorCode` variant except `BadRequest` survives the round
trip through its `quinn::VarInt` stream-reset value; `BadRequest` maps
forward to 400, but 400 maps back to `Unknown`. -/
theorem c10_error_code_roundtrip :
    (∀ c : ErrorCode, c ≠ ErrorCode.BadRequest →
      ErrorCode.fromVarInt c.toVarInt = c) ∧
    ErrorCode.BadRequest.toVarInt = 400 ∧
    ErrorCode.fromVarInt 400 = ErrorCode.Unknown := by
  refine ⟨?_, rfl, by decide⟩
  intro c h
  cases c <;> first | exact absurd rfl h | decide

/-- C10 witness: the round trip at the concrete variant `Ok`. -/
theorem c10_error_code_roundtrip_witness :
    ErrorCode.fromVarInt ErrorCode.Ok.toVarInt = ErrorCode.Ok :=
  c10_error_code_roundtrip.1 ErrorCode.Ok (by decide)

/-- C4 counterexample: a framed handshake carrying valid magic and the
unknown version 2 makes `ClientHandshake::read` fail with
`UnsupportedVersion`, yet `complete_handshake` closes the stream with
`BadHandshake` (402), not `VersionNotSupported` (505) as the claim says. -/
theorem c4_unknown_version_close_counterexample :
    ClientHandshake.read VERSION ([26, 204, 202, 240] ++ [2, 0] ++ [0, 0, 0, 0, 0, 0]) =
      RustResult.err (HandshakeError.UnsupportedVersion 1 2) ∧
    complete_handshake_decision
      (Except.ok ([26, 204, 202, 240] ++ [2, 0] ++ [0, 0, 0, 0, 0, 0])) =
      HandshakeCloseDecision.close ErrorCode.BadHandshake ∧
    ErrorCode.BadHandshake ≠ ErrorCode.VersionNotSupported := by
  decide

/-- C4 (amended): when the framed handshake fails to read, the server
closes with the code mapped from the framing error — `LengthRequired` when
the stream finished early between the length prefix and the payload; when
`ClientHandshake::read` fails for any reason (malformed handshake, invalid
ICAO, or unknown version alike) it closes with `BadHandshake`; the close
code `VersionNotSupported` is never chosen. -/
theorem c4_handshake_close_codes :
    (∀ e : LengthReadError, complete_handshake_decision (Except.error e) =
      HandshakeCloseDecision.close (lengthReadErrorCode e)) ∧
    lengthReadErrorCode LengthReadError.ReadExactFinishedEarly = ErrorCode.LengthRequired ∧
    (∀ buf : List Nat, (ClientHandshake.read VERSION buf).isErr = true →
      complete_handshake_decision (Except.ok buf) =
        HandshakeCloseDecision.close ErrorCode.BadHandshake) ∧
    (∀ frame, complete_handshake_decision frame ≠
      HandshakeCloseDecision.close ErrorCode.VersionNotSupported) := by
  refine ⟨fun e => rfl, rfl, ?_, ?_⟩
  · intro buf herr
    show (match ClientHandshake.read VERSION buf with
      | RustResult.err _ => HandshakeCloseDecision.close ErrorCode.BadHandshake
      | RustResult.panic m => HandshakeCloseDecision.panicked m
      | RustResult.ok (_, hs) =>
        HandshakeCloseDecision.accepted hs.client_details.1 hs.client_details.2) =
      HandshakeCloseDecision.close ErrorCode.BadHandshake
    cases hr : ClientHandshake.read VERSION buf with
    | ok v =>
      rw [hr] at herr
      cases herr
    | err e => rfl
    | panic m =>
      rw [hr] at herr
      cases herr
  · intro frame
    cases frame with
    | error e =>
      show HandshakeCloseDecision.close (lengthReadErrorCode e) ≠ _
      intro heq
      have h2 : lengthReadErrorCode e = ErrorCode.VersionNotSupported :=
        (HandshakeCloseDecision.close.injEq _ _).mp heq
      cases e <;> first
        | exact absurd h2 (by decide)
        | (revert h2
           simp only [lengthReadErrorCode]
           split <;> (intro h2; cases h2))
    | ok buf =>
      show (match ClientHandshake.read VERSION buf with
        | RustResult.err _ => HandshakeCloseDecision.close ErrorCode.BadHandshake
        | RustResult.panic m => HandshakeCloseDecision.panicked m
        | RustResult.ok (_, hs) =>
          HandshakeCloseDecision.accepted hs.client_details.1 hs.client_details.2) ≠
        HandshakeCloseDecision.close ErrorCode.VersionNotSupported
      cases ClientHandshake.read VERSION buf with
      | ok v =>
        obtain ⟨ver, hs⟩ := v
        exact fun h => HandshakeCloseDecision.noConfusion h
      | err e =>
        exact fun h =>
          ErrorCode.noConfusion ((HandshakeCloseDecision.close.injEq _ _).mp h)
      | panic m => exact fun h => HandshakeCloseDecision.noConfusion h

/-- C4 witness: the amended claim at a concrete unknown-version frame. -/
theorem c4_handshake_close_codes_witness :
    complete_handshake_decision
      (Except.ok ([26, 204, 202, 240] ++ [3, 0] ++ [0, 0, 0, 0, 0, 0])) =
      HandshakeCloseDecision.close ErrorCode.BadHandshake :=
  c4_handshake_close_codes.2.2.1 _ (by decide)

/-- C9: for every payload of at most 65535 bytes, `write_length_prefixed`
produces the 16-bit little-endian length followed by the payload, and
`read_length_prefixed` on that buffer returns exactly the payload; for a
longer payload the length backfill's `assert!` fires. -/
theorem c9_frame_roundtrip :
    (∀ bytes : List Nat, bytes.length ≤ 65535 →
      write_length_prefixed bytes =
        RustResult.ok ((bytes.length % 256) :: (bytes.length / 256) :: bytes) ∧
      read_length_prefixed ((bytes.length % 256) :: (bytes.length / 256) :: bytes) =
        Except.ok bytes) ∧
    (∀ bytes : List Nat, 65535 < bytes.length →
      (write_length_prefixed bytes).isPanic = true) := by
  constructor
  · exact read_write_length_prefixed
  · intro bytes h
    unfold write_length_prefixed
    rw [if_pos (by omega)]
    rfl

/-- C9 witness: the round trip at the concrete frame `[7, 8, 9]`. -/
theorem c9_frame_roundtrip_witness :
    write_length_prefixed [7, 8, 9] = RustResult.ok [3, 0, 7, 8, 9] ∧
    read_length_prefixed [3, 0, 7, 8, 9] = Except.ok [7, 8, 9] :=
  c9_frame_roundtrip.1 [7, 8, 9] (by decide)

/-- C8: for every representable endpoint — a hostname (which cannot begin
with the `|` marker) or a valid IPv4/IPv6 address, with a 16-bit port —
`parse_endpoint` applied to `to_compact_str`'s text returns the endpoint;
and parsing fails when no `:` is present or when the text after the last
`:` does not parse as a 16-bit decimal port. -/
theorem c8_endpoint_roundtrip :
    (∀ ep : Endpoint, ep.port < 65536 →
      (match ep.address with
        | AddressKind.Name hn => hn.data.headD ' ' ≠ '|'
        | AddressKind.Ip (IpAddr.v4 ip) =>
          ip.a ≤ 255 ∧ ip.b ≤ 255 ∧ ip.c ≤ 255 ∧ ip.d ≤ 255
        | AddressKind.Ip (IpAddr.v6 ip) => ∀ g ∈ ip.segments, g < 65536) →
      parse_endpoint (to_compact_str ep) = Except.ok ep) ∧
    (∀ s : String, ':' ∉ s.data →
      parse_endpoint s = Except.error "missing port separator") ∧
    (∀ (s : String) (l r : List Char), s.data = l ++ ':' :: r → ':' ∉ r →
      rustParseU16 r = none → parse_endpoint s = Except.error "invalid port") :=
  ⟨parse_endpoint_to_compact, parse_endpoint_no_colon, parse_endpoint_bad_port⟩

/-- C8 witness: the round trip at the concrete endpoints
`|1.2.3.4:2002` and `game.boop.com:2005`. -/
theorem c8_endpoint_roundtrip_witness :
    parse_endpoint (to_compact_str ⟨AddressKind.Ip (IpAddr.v4 ⟨1, 2, 3, 4⟩), 2002⟩) =
      Except.ok ⟨AddressKind.Ip (IpAddr.v4 ⟨1, 2, 3, 4⟩), 2002⟩ ∧
    parse_endpoint (to_compact_str ⟨AddressKind.Name "game.boop.com", 2005⟩) =
      Except.ok ⟨AddressKind.Name "game.boop.com", 2005⟩ :=
  ⟨c8_endpoint_roundtrip.1 ⟨AddressKind.Ip (IpAddr.v4 ⟨1, 2, 3, 4⟩), 2002⟩
      (by decide) (by decide),
    c8_endpoint_roundtrip.1 ⟨AddressKind.Name "game.boop.com", 2005⟩
      (by decide) (by decide)⟩

/-- C6: `Server::upsert` appends exactly two statements, in order.  The
first is the `INSERT INTO servers` whose `ON CONFLICT(endpoint) DO UPDATE`
patches `contributors` with the peer's IP key and refreshes `cont_update`,
guarded by `WHERE excluded.icao = servers.icao`, with parameters binding
the endpoint, the ICAO and the encoded tokens.  The second is the
`INSERT INTO dc` whose `ON CONFLICT(ip) DO UPDATE` patches the `servers`
object, ending in `WHERE excluded.icao = dc.icao`, with parameters binding
the peer IP, the peer port and the ICAO.  Both statements are pinned in
full.  (Token sets within the codec's data-model bounds: at most 127
tokens of at most 255 bytes each.) -/
theorem c6_upsert_two_statements :
    ∀ (peer : Peer) (ep : Endpoint) (icao : IcaoCode) (ts : TokenSet)
      (stmts : List Statement),
      ts.tokens.length ≤ 127 → (∀ tok ∈ ts.tokens, tok.length ≤ 255) →
      ∃ tokParam,
        TokenSet.to_sql ts = RustResult.ok tokParam ∧
        Server.upsert peer ep icao ts stmts = RustResult.ok (stmts ++
          [Statement.WithParams
            ("INSERT INTO servers (endpoint,icao,tokens,contributors,cont_update) VALUES (?,?,?,jsonb(\'\x7b\"" ++ peer.ipText ++
              "\":\x7b\x7d\x7d\'),unixepoch(\'now\'))\n             ON CONFLICT(endpoint) DO UPDATE SET\n                contributors = jsonb_patch(contributors,\'\x7b\"" ++ peer.ipText ++
              "\":\x7b\x7d\x7d\'),\n                cont_update = unixepoch(\'now\')\n             WHERE excluded.icao = servers.icao")
            [ep.to_sql, icao.to_sql, tokParam],
          Statement.WithParams
            ("INSERT INTO dc (ip,port,icao,servers) VALUES (?,?,?,jsonb(\'\x7b\"" ++ ep.address.toText ++
              "\":\x7b\x7d\x7d\'))\n            ON CONFLICT(ip) DO UPDATE SET\n                servers = jsonb_patch(servers,\'\x7b\"" ++ ep.address.toText ++
              "\":\x7b\x7d\x7d\')\n            WHERE excluded.icao = dc.icao")
            [SqliteParam.Text peer.ipText, SqliteParam.Integer peer.port,
              icao.to_sql]]) := by
  intro peer ep icao ts stmts hc hl
  obtain ⟨p, hp⟩ := to_sql_ok ts hc hl
  refine ⟨p, hp, ?_⟩
  unfold Server.upsert
  rw [hp]

/-- C6 witness: the two appended statements, in full, at a concrete peer
(`::1`, port 7000), endpoint (`h:80`), ICAO (`ABCD`) and one-token set. -/
theorem c6_upsert_two_statements_witness :
    ∃ tokParam,
      TokenSet.to_sql ⟨[[5]]⟩ = RustResult.ok tokParam ∧
      Server.upsert (⟨⟨0, 0, 0, 0, 0, 0, 0, 1⟩, 7000⟩ : Peer)
          (⟨AddressKind.Name "h", 80⟩ : Endpoint) (⟨65, 66, 67, 68⟩ : IcaoCode)
          ⟨[[5]]⟩ [] =
        RustResult.ok
          [Statement.WithParams
            "INSERT INTO servers (endpoint,icao,tokens,contributors,cont_update) VALUES (?,?,?,jsonb(\'\x7b\"::1\":\x7b\x7d\x7d\'),unixepoch(\'now\'))\n             ON CONFLICT(endpoint) DO UPDATE SET\n                contributors = jsonb_patch(contributors,\'\x7b\"::1\":\x7b\x7d\x7d\'),\n                cont_update = unixepoch(\'now\')\n             WHERE excluded.icao = servers.icao"
            [SqliteParam.Text "h:80", SqliteParam.Text "ABCD", tokParam],
          Statement.WithParams
            "INSERT INTO dc (ip,port,icao,servers) VALUES (?,?,?,jsonb(\'\x7b\"h\":\x7b\x7d\x7d\'))\n            ON CONFLICT(ip) DO UPDATE SET\n                servers = jsonb_patch(servers,\'\x7b\"h\":\x7b\x7d\x7d\')\n            WHERE excluded.icao = dc.icao"
            [SqliteParam.Text "::1", SqliteParam.Integer 7000,
              SqliteParam.Text "ABCD"]] :=
  c6_upsert_two_statements ⟨⟨0, 0, 0, 0, 0, 0, 0, 1⟩, 7000⟩
    ⟨AddressKind.Name "h", 80⟩ ⟨65, 66, 67, 68⟩ ⟨[[5]]⟩ [] (by decide) (by decide)
